import Mathlib

/-!
# Verification of the pageshot scraper core

Shallow embedding of the scraper's pure logic (page classification,
price normalization, image-candidate filtering, retry/poll loops and
response assembly) from `src/index.js` and the variants
`src/unnamed/part_000` / `src/unnamed/part_001`, together with proofs of
the specification's claims about them.

Strings are modelled as `List Char` internally (`String.data`), and the
JavaScript regular-expression operations used by the source are embedded
as explicit decidable scanners over `List Char`.
-/

namespace Pageshot

/-! ## Character classes (JavaScript regex semantics)

`jsWs` is the character set matched by JavaScript `\s` (and trimmed by
`String.prototype.trim`).  `isWordChar` is `\w` = `[A-Za-z0-9_]`, the
class underlying the `\b` word-boundary assertion.  `isSc` is the
Unicode `Currency_Symbol` general category used by `[\p{Sc}]`. -/

def jsWs (c : Char) : Bool :=
  let n := c.toNat
  n == 9 || n == 10 || n == 11 || n == 12 || n == 13 || n == 32 ||
  n == 0xA0 || n == 0x1680 || (0x2000 ≤ n && n ≤ 0x200A) ||
  n == 0x2028 || n == 0x2029 || n == 0x202F || n == 0x205F ||
  n == 0x3000 || n == 0xFEFF

def isWordChar (c : Char) : Bool :=
  let n := c.toNat
  (48 ≤ n && n ≤ 57) || (65 ≤ n && n ≤ 90) || (97 ≤ n && n ≤ 122) || n == 95

/-- Unicode general category `Sc` (currency symbols), as matched by
`[\p{Sc}]` with the `u` flag. -/
def isSc (c : Char) : Bool :=
  let n := c.toNat
  n == 0x24 || (0xA2 ≤ n && n ≤ 0xA5) || n == 0x58F || n == 0x60B ||
  n == 0x7FE || n == 0x7FF || n == 0x9F2 || n == 0x9F3 || n == 0x9FB ||
  n == 0xAF1 || n == 0xBF9 || n == 0xE3F || n == 0x17DB ||
  (0x20A0 ≤ n && n ≤ 0x20C0) || n == 0xA838 || n == 0xFDFC ||
  n == 0xFE69 || n == 0xFF04 || n == 0xFFE0 || n == 0xFFE1 ||
  n == 0xFFE5 || n == 0xFFE6 || (0x11FDD ≤ n && n ≤ 0x11FE0) ||
  n == 0x1E2FF || n == 0x1ECB0

def isUpperAZ (c : Char) : Bool :=
  let n := c.toNat
  65 ≤ n && n ≤ 90

/-- The characters replaced by `s.replace(/[   ]/g, " ")`. -/
def nbspToSpace (c : Char) : Char :=
  let n := c.toNat
  if n == 0xA0 || n == 0x2009 || n == 0x202F then ' ' else c

/-- The superscript/subscript digit set of the source's
`/[⁰¹²³⁴⁵⁶⁷⁸⁹₀₁₂₃₄₅₆₇₈₉]/` class. -/
def isSupSub (c : Char) : Bool :=
  let n := c.toNat
  n == 0x2070 || n == 0xB9 || n == 0xB2 || n == 0xB3 ||
  (0x2074 ≤ n && n ≤ 0x2079) || (0x2080 ≤ n && n ≤ 0x2089)

/-- The source's superscript/subscript digit map (`map[ch] || ch`). -/
def supMap (c : Char) : Char :=
  let n := c.toNat
  if n == 0x2070 || n == 0x2080 then '0'
  else if n == 0xB9 || n == 0x2081 then '1'
  else if n == 0xB2 || n == 0x2082 then '2'
  else if n == 0xB3 || n == 0x2083 then '3'
  else if n == 0x2074 || n == 0x2084 then '4'
  else if n == 0x2075 || n == 0x2085 then '5'
  else if n == 0x2076 || n == 0x2086 then '6'
  else if n == 0x2077 || n == 0x2087 then '7'
  else if n == 0x2078 || n == 0x2088 then '8'
  else if n == 0x2079 || n == 0x2089 then '9'
  else c

/-! ## Whitespace collapsing and trimming

`collapse` embeds `s.replace(/\s+/g, " ")` (every maximal whitespace run
becomes a single space); `ltrim`/`rtrim` embed the two ends of
`String.prototype.trim`. -/

mutual

def collapse : List Char → List Char
  | [] => []
  | c :: r => if jsWs c then ' ' :: collapseWs r else c :: collapse r

/-- State of `collapse` while inside a whitespace run (the run's
further whitespace characters are dropped). -/
def collapseWs : List Char → List Char
  | [] => []
  | c :: r => if jsWs c then collapseWs r else c :: collapse r

end

def ltrim (l : List Char) : List Char := l.dropWhile jsWs

def rtrim : List Char → List Char
  | [] => []
  | c :: r => if rtrim r = [] ∧ jsWs c then [] else c :: rtrim r

def jsTrim (l : List Char) : List Char := rtrim (ltrim l)

/-! ## Pattern scanners for the price-normalization regexes -/

/-- Does the list start with digit, '.', digit, digit
(one step of `/\d\.\d{2,}/.test`)? -/
def decAtHead : List Char → Bool
  | d :: dot :: c1 :: c2 :: _ =>
    d.isDigit && dot == '.' && c1.isDigit && c2.isDigit
  | _ => false

/-- Embeds `/\d\.\d{2,}/.test(s)`. -/
def hasDec : List Char → Bool
  | [] => false
  | c :: r => decAtHead (c :: r) || hasDec r

/-- Word-boundary condition after a match: the remainder is empty or
starts with a non-word character (`\b` before the next character). -/
def bOk : List Char → Bool
  | [] => true
  | c :: _ => !isWordChar c

/-- After the leading digit of `(\d+)`, does `,(\d{2})\b` follow the
remaining digit run? -/
def tailMatchC (l : List Char) : Bool :=
  match l.dropWhile Char.isDigit with
  | x :: d1 :: d2 :: r => x == ',' && d1.isDigit && d2.isDigit && bOk r
  | _ => false

/-- Match of `/(\d+),(\d{2})\b/` anchored at the head of the list. -/
def matchCAt : List Char → Bool
  | [] => false
  | c :: r => c.isDigit && tailMatchC r

/-- Embeds `/(\d+),(\d{2})\b/.test(s)`. -/
def grpC : List Char → Bool
  | [] => false
  | c :: r => matchCAt (c :: r) || grpC r

/-- Embeds `s.replace(/(\d+),(\d{2})\b/, "$1.$2")`: the comma of the
first match becomes a dot; no match leaves the list unchanged. -/
def commaStep : List Char → List Char
  | [] => []
  | c :: r =>
    if matchCAt (c :: r) then
      (c :: r).takeWhile Char.isDigit ++
        '.' :: ((c :: r).dropWhile Char.isDigit).tail
    else c :: commaStep r

/-- After the leading digit of `(\d+)`, does `\s+(\d{2})\b` follow the
remaining digit run? -/
def tailMatchS (l : List Char) : Bool :=
  match l.dropWhile Char.isDigit with
  | w :: rest =>
    jsWs w &&
      (match rest.dropWhile jsWs with
       | d1 :: d2 :: r => d1.isDigit && d2.isDigit && bOk r
       | _ => false)
  | [] => false

/-- Match of `/(\d+)\s+(\d{2})\b/` anchored at the head of the list. -/
def matchSAt : List Char → Bool
  | [] => false
  | c :: r => c.isDigit && tailMatchS r

/-- Embeds `/(\d+)\s+(\d{2})\b/.test(s)`. -/
def grpS : List Char → Bool
  | [] => false
  | c :: r => matchSAt (c :: r) || grpS r

/-- Embeds `s.replace(/(\d+)\s+(\d{2})\b/, "$1.$2")`: the whitespace
run of the first match becomes a dot. -/
def spaceStep : List Char → List Char
  | [] => []
  | c :: r =>
    if matchSAt (c :: r) then
      (c :: r).takeWhile Char.isDigit ++
        '.' :: (((c :: r).dropWhile Char.isDigit).dropWhile jsWs)
    else c :: spaceStep r

/-! ## Currency-token scanner

`currencyToken` embeds `s.match(/([\p{Sc}]|\b[A-Z]{3}\b)/u)`: the
leftmost occurrence of a currency-symbol character or of a
word-bounded run of exactly three capital letters.  The scanner carries
the wordness of the previous character for the leading `\b`. -/

/-- A `\b[A-Z]{3}\b` match starting at `c :: r` (the leading `\b` is
checked by the caller via the previous character's wordness). -/
def tripleAt (c : Char) (r : List Char) : Option (List Char) :=
  match r with
  | c2 :: c3 :: r2 =>
    if isUpperAZ c && isUpperAZ c2 && isUpperAZ c3 && bOk r2 then
      some [c, c2, c3]
    else none
  | _ => none

def curTokAux (prev : Bool) : List Char → Option (List Char)
  | [] => none
  | c :: r =>
    if isSc c then some [c]
    else
      match if prev then none else tripleAt c r with
      | some t => some t
      | none => curTokAux (isWordChar c) r

/-- Embeds `currencyToken(s)` (the empty list when there is no match). -/
def curTok (l : List Char) : List Char := (curTokAux false l).getD []

/-- Embeds `includesCurrency(s)` — the same pattern, as a test. -/
def incCur (l : List Char) : Bool := (curTokAux false l).isSome

/-! ## normalizeGeminiPrice (src/index.js lines 727-755) -/

def unspecified : List Char := "Unspecified".data

/-- Stage of `normalizeGeminiPrice`: the comma-to-decimal rule
(`if (!/\d\.\d{2,}/.test(s) && /(\d+),(\d{2})\b/.test(s)) s = s.replace(...)`;
with no match the replace is the identity, so the test is absorbed). -/
def npComma (s : List Char) : List Char :=
  if hasDec s then s else commaStep s

/-- Stage of `normalizeGeminiPrice`: the space-to-decimal rule. -/
def npSpace (s : List Char) : List Char :=
  if hasDec s then s else spaceStep s

/-- Stage of `normalizeGeminiPrice`: the superscript-artifact branch
(`if (hadSuper && !/\d\.\d{2,}/.test(s)) { ... }`). -/
def npSuper (hadSuper : Bool) (dom s : List Char) : List Char :=
  if hadSuper && !hasDec s then
    let digits := s.filter Char.isDigit
    if 3 ≤ digits.length then
      let num := digits.take (digits.length - 2) ++
        '.' :: digits.drop (digits.length - 2)
      let cur := if curTok s = [] then curTok dom else curTok s
      if cur = [] then num else cur ++ ' ' :: num
    else s
  else s

/-- Stage of `normalizeGeminiPrice`: borrowing a currency token from the
DOM price (`if (!includesCurrency(s) && includesCurrency(domPrice)) ...`). -/
def npCurrency (dom s : List Char) : List Char :=
  if !incCur s && incCur dom then
    let cur := curTok dom
    if cur = [] then s else cur ++ ' ' :: s
  else s

/-- Core of `normalizeGeminiPrice(raw, domPrice)` on character lists:
trim and blank-check, NBSP replacement, superscript detection and
mapping, the comma and space decimal rules, the superscript branch, the
currency borrow, and the final whitespace collapse and trim. -/
def normPrice (raw dom : List Char) : List Char :=
  let s0 := jsTrim raw
  if s0 = [] then unspecified else
  let s1 := s0.map nbspToSpace
  let hadSuper := s1.any isSupSub
  let s2 := s1.map supMap
  let s6 := npCurrency dom (npSuper hadSuper dom (npSpace (npComma s2)))
  let s7 := jsTrim (collapse s6)
  if s7 = [] then unspecified else s7

/-- Embeds `normalizeGeminiPrice` on `String`s. -/
def normalizeGeminiPrice (raw dom : String) : String :=
  ⟨normPrice raw.data dom.data⟩

/-- The rewrite pipeline of `normPrice` between the blank check and the
final collapse-and-trim, written as one composed term. -/
def normPipe (raw dom : List Char) : List Char :=
  npCurrency dom (npSuper (((jsTrim raw).map nbspToSpace).any isSupSub) dom
    (npSpace (npComma (((jsTrim raw).map nbspToSpace).map supMap))))

/-- Canonical-form invariant of every non-blank `normPrice` output:
nonempty, every whitespace character is a plain space, no two adjacent
whitespace characters, non-whitespace first and last characters, no
superscript or subscript digits, either a `\d\.\d\x7b2,\x7d` decimal is
present or neither grouping rule can fire, and a currency token is
present whenever the DOM price has one.  Every stage of a second
normalization pass is the identity on such a string. -/
def priceCanon (dom t : List Char) : Prop :=
  t ≠ [] ∧
  (∀ c ∈ t, jsWs c = true → c = ' ') ∧
  List.Chain' (fun a b => ¬(jsWs a = true ∧ jsWs b = true)) t ∧
  (∀ c r, t = c :: r → jsWs c = false) ∧
  (∀ c, t.getLast? = some c → jsWs c = false) ∧
  (∀ c ∈ t, isSupSub c = false) ∧
  (hasDec t = true ∨ (grpC t = false ∧ grpS t = false)) ∧
  (incCur dom = true → incCur t = true)

/-! ## Generic string helpers used by the scraping code -/

/-- ASCII lowering, embedding `toLowerCase` on the ASCII range (the
URL patterns and markers compared case-insensitively are all ASCII). -/
def asciiLower (c : Char) : Char :=
  let n := c.toNat
  if 65 ≤ n ∧ n ≤ 90 then Char.ofNat (n + 32) else c

/-- Embeds `String.prototype.includes` as a substring scan. -/
def containsSub (needle : List Char) : List Char → Bool
  | [] => needle.isEmpty
  | c :: r => needle.isPrefixOf (c :: r) || containsSub needle r

/-- Case-insensitive substring test (a `/.../i` regex of a literal). -/
def ciContains (hay needle : String) : Bool :=
  containsSub (needle.data.map asciiLower) (hay.data.map asciiLower)

/-- Embeds JavaScript `trim()` on `String`s. -/
def jsTrimS (s : String) : String := ⟨jsTrim s.data⟩

def lowerS (s : String) : String := ⟨s.data.map asciiLower⟩

/-! ## Image extraction (src/index.js lines 487-585)

The image block of `scrapeProductData`.  The DOM reads are passed in as
the lists of raw candidate strings they produce: the `src` attributes of
the visible thumbnails, the `data-old-hires` / `data-a-dynamic-image`
keys of the landing image, and the hi-res regex matches of the
full-document sweep.  The merge, filter, dedupe and source-count logic
is embedded in full. -/

/-- Character class `[A-Z0-9_,]` with the `i` flag. -/
def imgClassChar (c : Char) : Bool :=
  let n := c.toNat
  (48 ≤ n && n ≤ 57) || (65 ≤ n && n ≤ 90) || (97 ≤ n && n ≤ 122) ||
  n == 95 || n == 44

/-- Case-insensitive literal-prefix test (pattern given lowercase). -/
def ciPrefix (pat l : List Char) : Bool := pat.isPrefixOf (l.map asciiLower)

/-- One attempt of `/\._[A-Z0-9_,]+\_\.jpg/i` anchored at the head: on a
match, the full replacement of the suffix (matched text replaced by
".jpg"); `none` otherwise.  Since `.` terminates the greedy class run,
the `_` before `.jpg` must be the run's last character. -/
def imgNormAt : List Char → Option (List Char)
  | '.' :: '_' :: rest =>
    let run := rest.takeWhile imgClassChar
    let after := rest.dropWhile imgClassChar
    if 2 ≤ run.length && run.getLastD ' ' == '_' && ciPrefix ".jpg".data after
    then some (".jpg".data ++ after.drop 4)
    else none
  | _ => none

/-- Embeds `url.replace(/\._[A-Z0-9_,]+\_\.jpg/i, ".jpg")`. -/
def imgNormScan : List Char → List Char
  | [] => []
  | c :: r =>
    match imgNormAt (c :: r) with
    | some repl => repl
    | none => c :: imgNormScan r

/-- Embeds `normalizeImageUrl` (`url ? url.replace(...) : ""`). -/
def normalizeImageUrl (url : String) : String :=
  if url = "" then "" else ⟨imgNormScan url.data⟩

/-- Line terminators not matched by `.` in a JavaScript regex. -/
def lineTerm (c : Char) : Bool :=
  let n := c.toNat
  n == 10 || n == 13 || n == 0x2028 || n == 0x2029

/-- Match of `/\._AC_SL\d+_\.jpg(?:\?.*)?$/i` anchored at the head of
the list (and required to reach the end of the string). -/
def acAt (l : List Char) : Bool :=
  ciPrefix "._ac_sl".data l &&
    (let m := l.drop 7
     let ds := m.takeWhile Char.isDigit
     let n := m.dropWhile Char.isDigit
     !ds.isEmpty && ciPrefix "_.jpg".data n &&
       (match n.drop 5 with
        | [] => true
        | '?' :: t => t.all (fun c => !lineTerm c)
        | _ => false))

/-- Embeds `AC_ANY.test(url)` by scanning every start position. -/
def acScan : List Char → Bool
  | [] => false
  | c :: r => acAt (c :: r) || acScan r

def acAny (url : String) : Bool := acScan url.data

/-- The sprite/overlay/icon junk filter of the image block (the body of
the `filter` at lines 556-567), on the lowercased URL. -/
def isJunkImage (url : String) : Bool :=
  let low := lowerS url
  containsSub "sprite".data low.data || containsSub "360_icon".data low.data ||
  containsSub "play-icon".data low.data || containsSub "overlay".data low.data ||
  containsSub "fmjpg".data low.data || containsSub "fmpng".data low.data

/-- First-seen source labels for `firstSourceByUrl`. -/
inductive ImgSource
  | visibleThumbs
  | landingAttrs
  | htmlSweep
deriving DecidableEq, Repr

/-- Embeds `markIfFirst` iterated over a candidate list: a falsy URL is
skipped, an already-present key keeps its first label. -/
def markAll (m : List (String × ImgSource)) (us : List String)
    (lab : ImgSource) : List (String × ImgSource) :=
  match us with
  | [] => m
  | u :: rest =>
    let m2 :=
      if u = "" then m
      else if (m.lookup u).isSome then m
      else m ++ [(u, lab)]
    markAll m2 rest lab

/-- Embeds `[...new Set(xs)]`: deduplication keeping first occurrences. -/
def dedupFirst (seen : List String) : List String → List String
  | [] => []
  | u :: r =>
    if seen.contains u then dedupFirst seen r
    else u :: dedupFirst (u :: seen) r

/-- Result of the image block: the normalized primary URL, the final
secondary set, and the per-source counters. -/
structure ImageExtraction where
  mainImageUrl : String
  additionalImageUrls : List String
  visibleThumbs : Nat
  landingAttrs : Nat
  htmlSweep : Nat
deriving Repr, DecidableEq

/-- Embeds the image block of `scrapeProductData`:
merge (visible → landing → sweep), first-source marking on the raw
values, dedupe, junk filter, main-image exclusion plus `AC_ANY` filter,
final dedupe, and first-source counting over the kept URLs. -/
def scrapeProductDataImages (visibleRaw landingRaw hiRes : List String)
    (mainRaw : String) : ImageExtraction :=
  let normalizedMain := normalizeImageUrl (jsTrimS mainRaw)
  let add1 := (visibleRaw.map jsTrimS).filter (fun s => s ≠ "")
  let m1 := markAll [] add1 .visibleThumbs
  let m2 := markAll m1 landingRaw .landingAttrs
  let m3 := markAll m2 hiRes .htmlSweep
  let merged := add1 ++ (landingRaw.map jsTrimS).filter (fun s => s ≠ "") ++ hiRes
  let d1 := dedupFirst [] merged
  let f1 := d1.filter (fun s => s ≠ "" && !isJunkImage s)
  let f2 := (f1.filter (fun u => u ≠ "" && u ≠ normalizedMain)).filter acAny
  let final := dedupFirst [] f2
  { mainImageUrl := normalizedMain
    additionalImageUrls := final
    visibleThumbs := final.countP (fun u => m3.lookup u = some .visibleThumbs)
    landingAttrs := final.countP (fun u => m3.lookup u = some .landingAttrs)
    htmlSweep := final.countP (fun u => m3.lookup u = some .htmlSweep) }

/-! ## Page classification (`detectCase`)

`Part000.detectCase` embeds src/unnamed/part_000 lines 226-263;
`Part001.detectCase` embeds src/unnamed/part_001 lines 64-78.  The
`isVisible` probes over the live DOM are inputs; the regex tests over
`page.url()` and `page.content()` are embedded. -/

namespace Part000

/-- Signals of a loaded page as observed by `detectCase`'s probes. -/
structure PageView where
  url : String
  html : String
  titleVisible : Bool
  titleText : String
  continueVisible : Bool
  captchaFormVisible : Bool
  captchaInputVisible : Bool
  captchaImgVisible : Bool
deriving Repr

inductive Case
  | normal
  | continueShopping
  | captchaText
  | error503
  | error504
deriving DecidableEq, Repr

/-- Embeds `detectCase(page)` of part_000: product title first, then
continue-shopping, then captcha, then the 503/504 markers, `normal`
as fallback. -/
def detectCase (p : PageView) : Case :=
  let is503 := Pageshot.ciContains p.html "503 - Service Unavailable"
  let is504 := Pageshot.ciContains p.html "504 - Gateway Time-out"
  if p.titleVisible && jsTrimS p.titleText ≠ "" then .normal
  else if p.continueVisible then .continueShopping
  else
    let urlLooksCaptcha := Pageshot.ciContains p.url "/errors/validateCaptcha"
    if urlLooksCaptcha || p.captchaFormVisible ||
        (p.captchaImgVisible && p.captchaInputVisible) then .captchaText
    else if is503 then .error503
    else if is504 then .error504
    else .normal

end Part000

namespace Part001

/-- Signals of a loaded page as observed by part_001's `detectCase`. -/
structure PageView where
  html : String
  titleVisible : Bool
deriving Repr

/-- Embeds `detectCase(page)` of part_001: visible product title first,
then the 503/504 markers, `normal` as fallback. -/
def detectCase (p : PageView) : Part000.Case :=
  let is503 := Pageshot.ciContains p.html "503 - Service Unavailable"
  let is504 := Pageshot.ciContains p.html "504 - Gateway Time-out"
  if p.titleVisible then .normal
  else if is503 then .error503
  else if is504 then .error504
  else .normal

end Part001

/-! ## Detour recognition and the recovery loops (src/index.js) -/

/-- Run test for `/dp/` / `/gp/product/` followed by at least 8
`[A-Z0-9]` (with the `i` flag) characters, anchored at the head. -/
def dpAt (needle : List Char) (l : List Char) : Bool :=
  ciPrefix needle l &&
    8 ≤ ((l.drop needle.length).takeWhile
          (fun c =>
            let n := c.toNat
            (48 ≤ n && n ≤ 57) || (65 ≤ n && n ≤ 90) ||
              (97 ≤ n && n ≤ 122))).length

def dpScan (needle : List Char) : List Char → Bool
  | [] => false
  | c :: r => dpAt needle (c :: r) || dpScan needle r

/-- Embeds `isDpUrl` (src/index.js line 103). -/
def isDpUrl (u : String) : Bool :=
  dpScan "/dp/".data u.data || dpScan "/gp/product/".data u.data

/-- Embeds `isDetourUrl` (src/index.js lines 794-806). -/
def isDetourUrl (u : String) : Bool :=
  if u = "" then false
  else if isDpUrl u then false
  else
    ciContains u "/hz/mobile" || ciContains u "/ap/signin" ||
    ciContains u "/gp/help" || ciContains u "/gp/navigation" ||
    ciContains u "/customer-preferences" || ciContains u "/gp/yourstore" ||
    ciContains u "/gp/history"

/-- The detour-bounce loop of the `/scrape` handler (lines 830-838):
`navs k` is the page URL observed after `k` re-navigations; the value is
the `detourBounceAttempts` counter.  Fuel starts at 3. -/
def detourLoopAux (navs : Nat → String) : Nat → Nat → Nat
  | 0, _ => 0
  | n + 1, k =>
    if isDetourUrl (navs k) then 1 + detourLoopAux navs n (k + 1) else 0

def detourBounceAttempts (navs : Nat → String) : Nat :=
  detourLoopAux navs 3 0

/-- The continue-shopping loop of the `/scrape` handler (lines
841-848): `dismissed i` / `ready i` are the outcomes of
`handleContinueShopping` and `isProductPage` on iteration `i`; the
value is the `continueShoppingDismissals` counter.  Fuel starts at 3. -/
def csLoopAux (dismissed ready : Nat → Bool) : Nat → Nat → Nat
  | 0, _ => 0
  | n + 1, i =>
    let d := if dismissed i then 1 else 0
    if ready i then d else d + csLoopAux dismissed ready n (i + 1)

def continueShoppingDismissals (dismissed ready : Nat → Bool) : Nat :=
  csLoopAux dismissed ready 3 0

/-! ## The 2Captcha solver (src/unnamed/part_000 lines 82-103) -/

/-- A parsed response of the solving service (`status` / `request`). -/
structure PollResp where
  status : Nat
  request : String
deriving Repr, DecidableEq

inductive SolveOutcome
  | solved (text : String)
  | pollFailed
  | timeout
deriving DecidableEq, Repr

/-- The polling loop of `solveTextCaptcha` (`for (let i = 0; i < 20; i++)`,
a 5000 ms sleep before each poll).  Returns the outcome and the number
of polls performed. -/
def solvePollAux (poll : Nat → PollResp) : Nat → Nat → SolveOutcome × Nat
  | 0, _ => (.timeout, 0)
  | n + 1, i =>
    let p := poll i
    if p.status = 1 then (.solved p.request, 1)
    else if p.request ≠ "CAPCHA_NOT_READY" then (.pollFailed, 1)
    else
      let r := solvePollAux poll n (i + 1)
      (r.1, r.2 + 1)

def solveTextCaptchaPoll (poll : Nat → PollResp) : SolveOutcome × Nat :=
  solvePollAux poll 20 0

inductive SolveRes
  | submitFail
  | solved (text : String)
  | pollFail
  | timeoutFail
deriving DecidableEq, Repr

/-- The `ok` field of `solveTextCaptcha`'s result object. -/
def SolveRes.isOk : SolveRes → Bool
  | .solved _ => true
  | _ => false

/-- Embeds `solveTextCaptcha` of part_000: with no configured key the
function throws (`Except.error`); otherwise a failed submission, a
failed poll or 20 not-ready rounds yield a non-ok result object. -/
def solveTextCaptcha (key : String) (submit : PollResp)
    (poll : Nat → PollResp) : Except String SolveRes :=
  if key = "" then .error "TWOCAPTCHA_API_KEY not set"
  else if submit.status ≠ 1 then .ok .submitFail
  else
    match solveTextCaptchaPoll poll with
    | (.solved t, _) => .ok (.solved t)
    | (.pollFailed, _) => .ok .pollFail
    | (.timeout, _) => .ok .timeoutFail

/-- The observable HTTP outcome of the captcha branch of part_000's
`/scrape` handler: status code, the JSON `ok` field, the JSON
`solverOk` field (absent on the exception path) and whether the body
carries a screenshot (`base64`). -/
structure CaptchaHttpResp where
  status : Nat
  okField : Bool
  solverOk : Option Bool
  hasScreenshot : Bool
deriving DecidableEq, Repr

/-- Embeds the captcha branch of part_000's `/scrape` handler (lines
471-507) together with the surrounding catch (lines 530-540): a failed
crop returns a degraded 200 body; a throwing `solveTextCaptcha` reaches
the catch and produces a 500 error body; otherwise the solver's result
object is serialized in a 200 body. -/
def scrapeCaptchaBranch (key : String) (cropOk : Bool) (submit : PollResp)
    (poll : Nat → PollResp) : CaptchaHttpResp :=
  if !cropOk then
    { status := 200, okField := false, solverOk := some false,
      hasScreenshot := true }
  else
    match solveTextCaptcha key submit poll with
    | .error _ =>
      { status := 500, okField := false, solverOk := none,
        hasScreenshot := false }
    | .ok r =>
      { status := 200, okField := r.isOk, solverOk := some r.isOk,
        hasScreenshot := true }

/-! ## safeGoto (src/index.js lines 130-149)

The outcome of one `page.goto` attempt is a transport/anti-bot success
or a failure carrying the thrown message (a positive `looksBlocked`
detection throws "Blocked by Amazon CAPTCHA/anti-bot" inside the same
try and is handled identically) and whether the page was found closed
in the catch. -/

inductive AttemptResult
  | ok
  | fail (msg : String) (pageClosed : Bool)

/-- One navigation outcome record: the `Except` result of `safeGoto`,
the number of `page.goto` attempts performed, and the number of
back-off sleeps taken between attempts. -/
structure NavRun where
  result : Except String Unit
  loads : Nat
  backoffs : Nat
deriving Repr

/-- The retry loop of `safeGoto`: fuel counts the remaining attempts
(`retries + 1 - attempt`); a back-off sleep happens only when another
attempt remains; a closed page rethrows immediately. -/
def safeGotoAux (att : Nat → AttemptResult) (lastErr : Option String) :
    Nat → Nat → NavRun
  | 0, _ => { result := .error (lastErr.getD "Navigation failed"),
              loads := 0, backoffs := 0 }
  | n + 1, i =>
    match att i with
    | .ok => { result := .ok (), loads := 1, backoffs := 0 }
    | .fail msg closed =>
      if closed then { result := .error msg, loads := 1, backoffs := 0 }
      else
        let r := safeGotoAux att (some msg) n (i + 1)
        { result := r.result, loads := r.loads + 1,
          backoffs := r.backoffs + (if n = 0 then 0 else 1) }

/-- Embeds `safeGoto(page, url, retries)` over an attempt oracle. -/
def safeGoto (att : Nat → AttemptResult) (retries : Nat) : NavRun :=
  safeGotoAux att none (retries + 1) 0

/-! ## Gemini extraction (src/index.js lines 757-784) -/

/-- The JavaScript view of a parsed JSON field: absent, a string, or
present with a non-string value. -/
inductive JsField
  | missing
  | str (s : String)
  | nonString
deriving DecidableEq, Repr

structure GeminiParsed where
  brand : JsField
  price : JsField
deriving DecidableEq, Repr

/-- Embeds the code-fence stripping of `geminiExtract`: the leading
replace removes a three-backtick fence, an optional case-insensitive
json tag and following whitespace; the trailing replace removes a
final three-backtick fence; a `trim` runs before and after. -/
def stripFences (s : String) : String :=
  let fence : List Char := "```".data
  let l := jsTrim s.data
  let l1 :=
    if fence.isPrefixOf l then
      let l2 := l.drop 3
      let l3 := if ciPrefix "json".data l2 then l2.drop 4 else l2
      l3.dropWhile jsWs
    else l
  let l4 :=
    if fence.isSuffixOf l1 then l1.take (l1.length - 3) else l1
  jsTrimS ⟨l4⟩

/-- The value a parsed field contributes
(`typeof parsed.brand === "string" ? parsed.brand.trim() : "Unspecified"`). -/
def fieldOr : JsField → String
  | .str s => jsTrimS s
  | _ => "Unspecified"

/-- Embeds `geminiExtract`: the model call either rejects
(`Except.error`, propagated — there is no try/catch around the call at
the call site) or returns text; the text is fence-stripped and handed
to `JSON.parse` (modelled as the external oracle `parse`, `none` being
a parse failure); only the parse is guarded by try/catch. -/
def geminiExtract (call : Except String String)
    (parse : String → Option GeminiParsed) : Except String (String × String) :=
  match call with
  | .error e => .error e
  | .ok t =>
    let text := stripFences (jsTrimS t)
    match parse text with
    | none => .ok ("Unspecified", "Unspecified")
    | some p => .ok (fieldOr p.brand, fieldOr p.price)

/-- The HTTP status of the `/scrape` product path as a function of the
`geminiExtract` outcome at its call site (line 930): a rejection
propagates to the handler's catch (line 959, `res.status(500)`), a
result lets the handler answer 200 via `res.json`. -/
def productGeminiStatus (call : Except String String)
    (parse : String → Option GeminiParsed) : Nat :=
  match geminiExtract call parse with
  | .error _ => 500
  | .ok _ => 200

/-! ## Product response assembly (src/index.js lines 936-958) -/

/-- Embeds the JavaScript `value || "Unspecified"` defaulting on a
string field. -/
def orUnspecified (s : String) : String :=
  if s = "" then "Unspecified" else s

/-- The DOM-scraped string fields entering the final product JSON. -/
structure ScrapedFields where
  title : String
  itemForm : String
  price : String
  featuredBullets : String
  productDescription : String
  mainImageUrl : String
  reviewCount : String
  rating : String
  dateFirstAvailable : String
deriving Repr

/-- The string fields of the final product JSON. -/
structure ProductResponse where
  asin : String
  title : String
  brand : String
  itemForm : String
  price : String
  priceGemini : String
  featuredBullets : String
  productDescription : String
  mainImageUrl : String
  reviewCount : String
  rating : String
  dateFirstAvailable : String
deriving Repr

/-- Embeds the final `res.json` of the product path: every extracted
string field is defaulted with `|| "Unspecified"`. -/
def buildProductResponse (scraped : ScrapedFields)
    (geminiBrand priceGemini asinResolved : String) : ProductResponse :=
  { asin := orUnspecified asinResolved
    title := orUnspecified scraped.title
    brand := orUnspecified geminiBrand
    itemForm := orUnspecified scraped.itemForm
    price := orUnspecified scraped.price
    priceGemini := orUnspecified priceGemini
    featuredBullets := orUnspecified scraped.featuredBullets
    productDescription := orUnspecified scraped.productDescription
    mainImageUrl := orUnspecified scraped.mainImageUrl
    reviewCount := orUnspecified scraped.reviewCount
    rating := orUnspecified scraped.rating
    dateFirstAvailable := orUnspecified scraped.dateFirstAvailable }

/-! # Theorems -/

/-! ## Helper lemmas for the image block -/

theorem mem_of_mem_dedupFirst {u : String} :
    ∀ {seen l : List String}, u ∈ dedupFirst seen l → u ∈ l := by
  intro seen l
  induction l generalizing seen with
  | nil => intro h; simp [dedupFirst] at h
  | cons a r ih =>
    intro h
    by_cases hc : seen.contains a
    · rw [dedupFirst, if_pos hc] at h
      exact List.mem_cons_of_mem _ (ih h)
    · rw [dedupFirst, if_neg hc] at h
      rcases List.mem_cons.mp h with h1 | h2
      · exact h1 ▸ List.mem_cons_self _ _
      · exact List.mem_cons_of_mem _ (ih h2)

theorem lookup_isSome_append {m1 m2 : List (String × ImgSource)} {u : String}
    (h : (m1.lookup u).isSome) : ((m1 ++ m2).lookup u).isSome := by
  induction m1 with
  | nil => simp [List.lookup] at h
  | cons p r ih =>
    rcases p with ⟨k, v⟩
    by_cases hk : u == k
    · simp [List.lookup, hk]
    · simp only [List.lookup, hk, List.cons_append] at h ⊢
      exact ih h

theorem lookup_isSome_append_single {m : List (String × ImgSource)}
    {u : String} {lab : ImgSource} : ((m ++ [(u, lab)]).lookup u).isSome := by
  induction m with
  | nil => simp [List.lookup]
  | cons p r ih =>
    rcases p with ⟨k, v⟩
    by_cases hk : u == k
    · simp [List.lookup, hk]
    · simp only [List.lookup, hk, List.cons_append]
      exact ih

theorem lookup_isSome_markAll {m : List (String × ImgSource)}
    {us : List String} {lab : ImgSource} {u : String}
    (h : (m.lookup u).isSome) : ((markAll m us lab).lookup u).isSome := by
  induction us generalizing m with
  | nil => simpa [markAll] using h
  | cons a rest ih =>
    rw [markAll]
    apply ih
    dsimp only
    split
    · exact h
    · split
      · exact h
      · exact lookup_isSome_append h

theorem lookup_isSome_markAll_self {m : List (String × ImgSource)}
    {us : List String} {lab : ImgSource} {u : String}
    (hu : u ∈ us) (hne : u ≠ "") :
    ((markAll m us lab).lookup u).isSome := by
  induction us generalizing m with
  | nil => cases hu
  | cons a rest ih =>
    rw [markAll]
    rcases List.mem_cons.mp hu with rfl | hmem
    · apply lookup_isSome_markAll
      dsimp only
      rw [if_neg hne]
      split
      · assumption
      · exact lookup_isSome_append_single
    · exact ih hmem

/-- Membership in the final secondary-image list implies membership in
the merged candidate list plus all the filter conditions. -/
theorem mem_images_final {v l h : List String} {m : String} {u : String}
    (hu : u ∈ (scrapeProductDataImages v l h m).additionalImageUrls) :
    u ∈ ((v.map jsTrimS).filter (fun s => s ≠ "") ++
          ((l.map jsTrimS).filter (fun s => s ≠ "") ++ h)) ∧
    u ≠ "" ∧ isJunkImage u = false ∧
    u ≠ (scrapeProductDataImages v l h m).mainImageUrl ∧ acAny u = true := by
  simp only [scrapeProductDataImages] at hu
  have h2 := mem_of_mem_dedupFirst hu
  rw [List.mem_filter] at h2
  obtain ⟨h3, hac⟩ := h2
  rw [List.mem_filter] at h3
  obtain ⟨h4, hmain⟩ := h3
  rw [List.mem_filter] at h4
  obtain ⟨h5, hjunk⟩ := h4
  have h6 := mem_of_mem_dedupFirst h5
  simp only [Bool.and_eq_true, decide_eq_true_eq, Bool.not_eq_true'] at hmain hjunk
  refine ⟨by simpa using h6, hjunk.1, hjunk.2, ?_, hac⟩
  simpa [scrapeProductDataImages] using hmain.2

/-- C1.  For every document, the secondary image set returned by
`scrapeProductData` never contains the normalized primary image URL and
never contains a URL matching the sprite/overlay/icon junk patterns
(substrings "sprite", "360_icon", "play-icon", "overlay", "fmjpg",
"fmpng" of the lowercased URL). -/
theorem scrapeProductData_images_invariant
    (v l h : List String) (m : String) :
    (scrapeProductDataImages v l h m).mainImageUrl ∉
      (scrapeProductDataImages v l h m).additionalImageUrls ∧
    ∀ u ∈ (scrapeProductDataImages v l h m).additionalImageUrls,
      isJunkImage u = false := by
  constructor
  · intro hmem
    exact (mem_images_final hmem).2.2.2.1 rfl
  · intro u hu
    exact (mem_images_final hu).2.2.1

/-! ## C10: the imageSourceCounts sum -/

theorem countP_three_split (m3 : List (String × ImgSource)) (xs : List String) :
    xs.countP (fun u => m3.lookup u = some .visibleThumbs) +
      xs.countP (fun u => m3.lookup u = some .landingAttrs) +
      xs.countP (fun u => m3.lookup u = some .htmlSweep) =
      xs.countP (fun u => (m3.lookup u).isSome) := by
  induction xs with
  | nil => simp
  | cons a r ih =>
    rcases hm : m3.lookup a with _ | lab
    · simp [List.countP_cons, hm, ih]
    · cases lab <;> simp [List.countP_cons, hm] <;> omega

/-- C10 counterexample.  A landing-image attribute carrying a leading
space is marked under its raw value but merged trimmed, so the kept URL
finds no first-source label: the three counters sum to 0 while the
final list has one element. -/
theorem imageSourceCounts_gap :
    (scrapeProductDataImages [] [" https://a._AC_SL100_.jpg"] [] "").visibleThumbs +
      (scrapeProductDataImages [] [" https://a._AC_SL100_.jpg"] [] "").landingAttrs +
      (scrapeProductDataImages [] [" https://a._AC_SL100_.jpg"] [] "").htmlSweep ≠
      (scrapeProductDataImages [] [" https://a._AC_SL100_.jpg"] [] "").additionalImageUrls.length := by
  decide

/-- C10 (amended).  The three `imageSourceCounts` counters never sum to
more than the length of `additionalImageUrls`, and sum to exactly that
length whenever every landing-attribute candidate is already
whitespace-trimmed (the raw marking key then equals the merged value). -/
theorem imageSourceCounts_sum (v l h : List String) (m : String) :
    (scrapeProductDataImages v l h m).visibleThumbs +
        (scrapeProductDataImages v l h m).landingAttrs +
        (scrapeProductDataImages v l h m).htmlSweep ≤
      (scrapeProductDataImages v l h m).additionalImageUrls.length ∧
    ((∀ u ∈ l, jsTrimS u = u) →
      (scrapeProductDataImages v l h m).visibleThumbs +
          (scrapeProductDataImages v l h m).landingAttrs +
          (scrapeProductDataImages v l h m).htmlSweep =
        (scrapeProductDataImages v l h m).additionalImageUrls.length) := by
  have hsplit :
      (scrapeProductDataImages v l h m).visibleThumbs +
          (scrapeProductDataImages v l h m).landingAttrs +
          (scrapeProductDataImages v l h m).htmlSweep =
        (scrapeProductDataImages v l h m).additionalImageUrls.countP
          (fun u =>
            ((markAll (markAll (markAll []
                ((v.map jsTrimS).filter (fun s => s ≠ "")) .visibleThumbs)
                l .landingAttrs) h .htmlSweep).lookup u).isSome) := by
    simp only [scrapeProductDataImages]
    exact countP_three_split _ _
  constructor
  · rw [hsplit]
    exact List.countP_le_length _
  · intro htrim
    rw [hsplit]
    rw [List.countP_eq_length]
    intro u hu
    have hmem := mem_images_final (v := v) (l := l) (h := h) (m := m) hu
    obtain ⟨hmerged, hne, -, -, -⟩ := hmem
    rcases List.mem_append.mp hmerged with hv | hlh
    · apply lookup_isSome_markAll
      apply lookup_isSome_markAll
      exact lookup_isSome_markAll_self hv hne
    · rcases List.mem_append.mp hlh with hl | hh
      · apply lookup_isSome_markAll
        rw [List.mem_filter] at hl
        obtain ⟨hl1, -⟩ := hl
        obtain ⟨w, hw, rfl⟩ := List.mem_map.mp hl1
        rw [htrim w hw]
        rw [htrim w hw] at hne
        exact lookup_isSome_markAll_self hw hne
      · exact lookup_isSome_markAll_self hh hne

/-- C10 witness: the amended equality at a concrete document. -/
theorem imageSourceCounts_sum_witness :
    (scrapeProductDataImages ["https://x._AC_SL200_.jpg"]
        ["https://a._AC_SL100_.jpg"] [] "").visibleThumbs +
        (scrapeProductDataImages ["https://x._AC_SL200_.jpg"]
          ["https://a._AC_SL100_.jpg"] [] "").landingAttrs +
        (scrapeProductDataImages ["https://x._AC_SL200_.jpg"]
          ["https://a._AC_SL100_.jpg"] [] "").htmlSweep =
      (scrapeProductDataImages ["https://x._AC_SL200_.jpg"]
        ["https://a._AC_SL100_.jpg"] [] "").additionalImageUrls.length :=
  (imageSourceCounts_sum ["https://x._AC_SL200_.jpg"]
    ["https://a._AC_SL100_.jpg"] [] "").2 (by decide)

/-! ## C2: classification order of the transient-error state -/

/-- C2 counterexample.  A document that contains the
"503 - Service Unavailable" marker but also shows a product title is
classified `normal` by `detectCase`, not as the transient-error state:
the 503/504 markers are not checked first. -/
theorem detectCase_marker_not_first :
    ciContains "oops 503 - Service Unavailable" "503 - Service Unavailable"
        = true ∧
    Part000.detectCase
        ⟨"", "oops 503 - Service Unavailable", true, "Widget",
          false, false, false, false⟩ = Part000.Case.normal ∧
    Part000.detectCase
        ⟨"", "oops 503 - Service Unavailable", true, "Widget",
          false, false, false, false⟩ ≠ Part000.Case.error503 := by
  decide

/-- C2 (amended).  `detectCase` checks the transient-error markers
last, not first: a 503-marked document is classified as the
transient-error state only when the product-title check fails and (in
the part_000 variant) the continue-shopping and captcha checks fail as
well; with any of those signals present the earlier state wins. -/
theorem detectCase_transient_checked_last :
    (∀ p : Part000.PageView,
      ciContains p.html "503 - Service Unavailable" = true →
      (p.titleVisible = false ∨ jsTrimS p.titleText = "") →
      p.continueVisible = false →
      ciContains p.url "/errors/validateCaptcha" = false →
      p.captchaFormVisible = false →
      (p.captchaImgVisible = false ∨ p.captchaInputVisible = false) →
      Part000.detectCase p = Part000.Case.error503) ∧
    (∀ q : Part001.PageView,
      ciContains q.html "503 - Service Unavailable" = true →
      q.titleVisible = false →
      Part001.detectCase q = Part000.Case.error503) := by
  constructor
  · intro p h503 ht hc hcapu hcapf hcapim
    rcases ht with ht | ht <;> rcases hcapim with hi | hi <;>
      simp [Part000.detectCase, h503, ht, hc, hcapu, hcapf, hi]
  · intro q h503 ht
    simp [Part001.detectCase, h503, ht]

/-- C2 witness: the amended classification at a concrete error page. -/
theorem detectCase_transient_checked_last_witness :
    Part000.detectCase
        ⟨"https://www.amazon.com/dp/B012345678",
          "503 - Service Unavailable", false, "", false, false,
          false, false⟩ = Part000.Case.error503 :=
  detectCase_transient_checked_last.1 _ (by decide) (Or.inl rfl) rfl
    (by decide) rfl (Or.inl rfl)

/-! ## C3: the price-normalization examples -/

/-- C3 counterexample.  The spec's first example is off by the space
the code inserts after a borrowed currency token:
`normalizeGeminiPrice("34,95", "$1")` is not `"$34.95"`. -/
theorem normalizeGeminiPrice_spec_example_fails :
    normalizeGeminiPrice "34,95" "$1" ≠ "$34.95" := by decide

/-- C3 (amended).  The borrowed currency token is joined with a single
space: `normalizeGeminiPrice("34,95", "$1")` is `"$ 34.95"`; the second
example holds as stated, `normalizeGeminiPrice("³⁴⁹⁹", "USD 1")` is
`"USD 34.99"`. -/
theorem normalizeGeminiPrice_examples :
    normalizeGeminiPrice "34,95" "$1" = "$ 34.95" ∧
    normalizeGeminiPrice "³⁴⁹⁹" "USD 1" = "USD 34.99" := by decide

/-! ## C5: bounded recovery loops -/

theorem detourLoopAux_le (navs : Nat → String) :
    ∀ n k, detourLoopAux navs n k ≤ n := by
  intro n
  induction n with
  | zero => intro k; simp [detourLoopAux]
  | succ n ih =>
    intro k
    rw [detourLoopAux]
    split
    · have := ih (k + 1); omega
    · omega

theorem csLoopAux_le (dismissed ready : Nat → Bool) :
    ∀ n i, csLoopAux dismissed ready n i ≤ n := by
  intro n
  induction n with
  | zero => intro i; simp [csLoopAux]
  | succ n ih =>
    intro i
    rw [csLoopAux]
    have := ih (i + 1)
    split <;> split <;> omega

theorem solvePollAux_le (poll : Nat → PollResp) :
    ∀ n i, (solvePollAux poll n i).2 ≤ n := by
  intro n
  induction n with
  | zero => intro i; simp [solvePollAux]
  | succ n ih =>
    intro i
    rw [solvePollAux]
    have := ih (i + 1)
    dsimp only
    split
    · simp
    · split
      · simp
      · simpa using this

theorem solvePollAux_timeout (poll : Nat → PollResp)
    (h : ∀ i, (poll i).status ≠ 1 ∧ (poll i).request = "CAPCHA_NOT_READY") :
    ∀ n i, solvePollAux poll n i = (.timeout, n) := by
  intro n
  induction n with
  | zero => intro i; simp [solvePollAux]
  | succ n ih =>
    intro i
    rw [solvePollAux]
    have h1 := (h i).1
    have h2 := (h i).2
    simp [h1, h2, ih (i + 1)]

/-- C5.  Every recovery strategy is bounded by its documented ceiling,
for every possible page/poll behavior: the detour-bounce loop performs
at most 3 bounces, the continue-shopping loop at most 3 dismissals, and
the captcha solver polls at most 20 rounds at 5000 ms per round (at
most 100000 ms of polling delay); a never-ready solving service yields
the timeout outcome after exactly 20 polls. -/
theorem recoveryLoops_bounded :
    (∀ navs : Nat → String, detourBounceAttempts navs ≤ 3) ∧
    (∀ dismissed ready : Nat → Bool,
      continueShoppingDismissals dismissed ready ≤ 3) ∧
    (∀ poll : Nat → PollResp,
      (solveTextCaptchaPoll poll).2 ≤ 20 ∧
      5000 * (solveTextCaptchaPoll poll).2 ≤ 100000) ∧
    (∀ poll : Nat → PollResp,
      (∀ i, (poll i).status ≠ 1 ∧ (poll i).request = "CAPCHA_NOT_READY") →
      solveTextCaptchaPoll poll = (.timeout, 20)) := by
  refine ⟨fun navs => detourLoopAux_le navs 3 0,
          fun d r => csLoopAux_le d r 3 0,
          fun poll => ?_,
          fun poll h => solvePollAux_timeout poll h 20 0⟩
  have := solvePollAux_le poll 20 0
  exact ⟨this, by unfold solveTextCaptchaPoll; omega⟩

/-- C5 witness: a solver that never becomes ready times out after
exactly 20 polls. -/
theorem recoveryLoops_bounded_witness :
    solveTextCaptchaPoll (fun _ => ⟨0, "CAPCHA_NOT_READY"⟩) =
      (SolveOutcome.timeout, 20) :=
  recoveryLoops_bounded.2.2.2 _ (fun _ => ⟨by decide, rfl⟩)

/-! ## C6: the captcha branch with no solving credential -/

/-- C6 counterexample.  With no solving-service credential configured,
`solveTextCaptcha` throws and the captcha branch reaches the handler's
catch: HTTP 500 with no `solverOk` field and no screenshot — not a
degraded 200 response. -/
theorem captchaBranch_no_credential_fails :
    scrapeCaptchaBranch "" true ⟨1, "id"⟩ (fun _ => ⟨0, "CAPCHA_NOT_READY"⟩) =
        ⟨500, false, none, false⟩ ∧
    (scrapeCaptchaBranch "" true ⟨1, "id"⟩
        (fun _ => ⟨0, "CAPCHA_NOT_READY"⟩)).status ≠ 200 := by
  constructor
  · rfl
  · decide

/-- C6 (amended).  The degraded 200 response with a screenshot and
`solverOk: false` is produced when the captcha crop fails, or when a
credential is configured and the solver fails (rejected submission, or
20 not-ready polling rounds); with no credential configured the solver
throws and the endpoint returns HTTP 500. -/
theorem captchaBranch_behavior :
    (∀ (submit : PollResp) (poll : Nat → PollResp),
      scrapeCaptchaBranch "" true submit poll = ⟨500, false, none, false⟩) ∧
    (∀ (key : String) (submit : PollResp) (poll : Nat → PollResp),
      key ≠ "" → submit.status ≠ 1 →
      scrapeCaptchaBranch key true submit poll =
        ⟨200, false, some false, true⟩) ∧
    (∀ (key : String) (submit : PollResp) (poll : Nat → PollResp),
      key ≠ "" →
      (∀ i, (poll i).status ≠ 1 ∧ (poll i).request = "CAPCHA_NOT_READY") →
      scrapeCaptchaBranch key true submit poll =
        ⟨200, false, some false, true⟩) ∧
    (∀ (key : String) (submit : PollResp) (poll : Nat → PollResp),
      scrapeCaptchaBranch key false submit poll =
        ⟨200, false, some false, true⟩) := by
  refine ⟨fun submit poll => ?_, fun key submit poll hk hs => ?_,
          fun key submit poll hk hpoll => ?_, fun key submit poll => ?_⟩
  · simp [scrapeCaptchaBranch, solveTextCaptcha]
  · simp [scrapeCaptchaBranch, solveTextCaptcha, hk, hs, SolveRes.isOk]
  · by_cases hs : submit.status = 1
    · have ht := solvePollAux_timeout poll hpoll 20 0
      simp [scrapeCaptchaBranch, solveTextCaptcha, hk, hs,
        solveTextCaptchaPoll, ht, SolveRes.isOk]
    · simp [scrapeCaptchaBranch, solveTextCaptcha, hk, hs, SolveRes.isOk]
  · simp [scrapeCaptchaBranch]

/-- C6 witness: the amended degraded-200 outcome at a concrete failed
submission. -/
theorem captchaBranch_behavior_witness :
    scrapeCaptchaBranch "k" true ⟨0, "ERROR_ZERO_BALANCE"⟩
        (fun _ => ⟨0, "CAPCHA_NOT_READY"⟩) = ⟨200, false, some false, true⟩ :=
  captchaBranch_behavior.2.1 "k" ⟨0, "ERROR_ZERO_BALANCE"⟩
    (fun _ => ⟨0, "CAPCHA_NOT_READY"⟩) (by decide) (by decide)

/-! ## C7: vision-service failure handling -/

/-- C7 counterexample.  A rejected model call is not caught at
`geminiExtract`'s call site: the in-flight request becomes a failed
HTTP response (500), so a missing model response does abort the
request. -/
theorem geminiRejection_fails_request :
    productGeminiStatus (Except.error "model call failed") (fun _ => none)
        = 500 ∧
    productGeminiStatus (Except.error "model call failed") (fun _ => none)
        ≠ 200 := by
  exact ⟨rfl, by decide⟩

/-- C7 (amended).  If the model returns text that fails to parse as
JSON after code-fence stripping, `geminiExtract` yields both brand and
price as "Unspecified" and the request completes with HTTP 200; but a
rejected model call (missing response) propagates out of
`geminiExtract` and turns the request into a failed HTTP 500
response. -/
theorem geminiExtract_parse_failure_degrades :
    (∀ (t : String) (parse : String → Option GeminiParsed),
      parse (stripFences (jsTrimS t)) = none →
      geminiExtract (.ok t) parse = .ok ("Unspecified", "Unspecified") ∧
      productGeminiStatus (.ok t) parse = 200) ∧
    (∀ (e : String) (parse : String → Option GeminiParsed),
      geminiExtract (.error e) parse = .error e ∧
      productGeminiStatus (.error e) parse = 500) := by
  constructor
  · intro t parse hp
    constructor
    · simp [geminiExtract, hp]
    · simp [productGeminiStatus, geminiExtract, hp]
  · intro e parse
    exact ⟨rfl, rfl⟩

/-- C7 witness: unparseable model text degrades both fields at a
concrete input. -/
theorem geminiExtract_parse_failure_degrades_witness :
    geminiExtract (.ok "not json at all") (fun _ => none) =
      .ok ("Unspecified", "Unspecified") :=
  (geminiExtract_parse_failure_degrades.1 "not json at all"
    (fun _ => none) rfl).1

/-! ## C8: the safeGoto retry contract -/

theorem safeGotoAux_loads_le (att : Nat → AttemptResult) :
    ∀ (n : Nat) (lastErr : Option String) (i : Nat),
      (safeGotoAux att lastErr n i).loads ≤ n := by
  intro n
  induction n with
  | zero => intro lastErr i; simp [safeGotoAux]
  | succ n ih =>
    intro lastErr i
    rw [safeGotoAux]
    cases att i with
    | ok => simp
    | fail msg closed =>
      dsimp only
      split
      · simp
      · have := ih (some msg) (i + 1)
        simp only
        omega

theorem safeGotoAux_all_fail (att : Nat → AttemptResult) (msgs : Nat → String) :
    ∀ (n i : Nat) (lastErr : Option String),
      (∀ j, j ≤ n → att (i + j) = .fail (msgs (i + j)) false) →
      safeGotoAux att lastErr (n + 1) i =
        ⟨.error (msgs (i + n)), n + 1, n⟩ := by
  intro n
  induction n with
  | zero =>
    intro i lastErr h
    have h0 := h 0 (by omega)
    rw [safeGotoAux]
    simp only [Nat.add_zero] at h0
    rw [h0]
    simp [safeGotoAux]
  | succ n ih =>
    intro i lastErr h
    have h0 := h 0 (by omega)
    rw [safeGotoAux]
    simp only [Nat.add_zero] at h0
    rw [h0]
    have hrec := ih (i + 1) (some (msgs i))
      (fun j hj => by
        have := h (j + 1) (by omega)
        simpa [Nat.add_assoc, Nat.add_comm 1 j] using this)
    dsimp only
    rw [if_neg (by simp)]
    rw [hrec]
    have : i + 1 + n = i + (n + 1) := by omega
    simp [this]

theorem safeGotoAux_success (att : Nat → AttemptResult) :
    ∀ (n i k : Nat) (lastErr : Option String), k < n →
      (∀ j, j < k → ∃ m, att (i + j) = .fail m false) →
      att (i + k) = .ok →
      (safeGotoAux att lastErr n i).result = .ok () := by
  intro n
  induction n with
  | zero => intro i k lastErr hk; omega
  | succ n ih =>
    intro i k lastErr hk hfail hok
    cases k with
    | zero =>
      rw [safeGotoAux]
      simp only [Nat.add_zero] at hok
      rw [hok]
    | succ k =>
      obtain ⟨m, hm⟩ := hfail 0 (by omega)
      rw [safeGotoAux]
      simp only [Nat.add_zero] at hm
      rw [hm]
      dsimp only
      rw [if_neg (by simp)]
      exact ih (i + 1) k (some m) (by omega)
        (fun j hj => by
          have := hfail (j + 1) (by omega)
          simpa [Nat.add_assoc, Nat.add_comm 1 j] using this)
        (by simpa [Nat.add_assoc, Nat.add_comm 1 k] using hok)

/-- C8.  `safeGoto` attempts the load at most `retries + 1` times; when
every attempt fails (transport error or positive block detection, page
not closed) it performs a back-off sleep between consecutive attempts
(`retries` of them) and throws the error of the last attempt; and a
successful attempt (after any run of failures) returns without
error. -/
theorem safeGoto_contract :
    (∀ (att : Nat → AttemptResult) (retries : Nat),
      (safeGoto att retries).loads ≤ retries + 1) ∧
    (∀ (att : Nat → AttemptResult) (retries : Nat) (msgs : Nat → String),
      (∀ i, i ≤ retries → att i = .fail (msgs i) false) →
      safeGoto att retries = ⟨.error (msgs retries), retries + 1, retries⟩) ∧
    (∀ (att : Nat → AttemptResult) (retries k : Nat), k ≤ retries →
      (∀ j, j < k → ∃ m, att j = .fail m false) → att k = .ok →
      (safeGoto att retries).result = .ok ()) := by
  refine ⟨fun att retries => safeGotoAux_loads_le att _ _ _,
          fun att retries msgs h => ?_,
          fun att retries k hk hfail hok => ?_⟩
  · have := safeGotoAux_all_fail att msgs retries 0 none
      (fun j hj => by simpa using h j hj)
    simpa [safeGoto] using this
  · exact safeGotoAux_success att (retries + 1) 0 k none (by omega)
      (fun j hj => by simpa using hfail j hj) (by simpa using hok)

/-- C8 witness: all attempts failing at `retries = 2` yields the last
error after 3 loads and 2 back-offs. -/
theorem safeGoto_contract_witness :
    safeGoto (fun _ => .fail "net::ERR_TIMED_OUT" false) 2 =
      ⟨.error "net::ERR_TIMED_OUT", 3, 2⟩ :=
  safeGoto_contract.2.1 (fun _ => .fail "net::ERR_TIMED_OUT" false) 2
    (fun _ => "net::ERR_TIMED_OUT") (fun _ _ => rfl)

/-! ## C9: the "Unspecified" sentinel in the product response -/

theorem orUnspecified_spec (s : String) :
    (s = "" → orUnspecified s = "Unspecified") ∧ orUnspecified s ≠ "" := by
  unfold orUnspecified
  split
  · exact ⟨fun _ => rfl, by decide⟩
  · next h => exact ⟨fun hc => absurd hc h, h⟩

/-- C9.  In the product response, every extracted string field whose
underlying value is empty is returned as the sentinel "Unspecified",
and no such field is ever the empty string (title, brand, itemForm,
price, priceGemini, featuredBullets, productDescription, mainImageUrl,
reviewCount, rating, dateFirstAvailable, ASIN). -/
theorem productResponse_unspecified_defaults (scraped : ScrapedFields)
    (geminiBrand priceGemini asinResolved : String) :
    ((scraped.title = "" →
        (buildProductResponse scraped geminiBrand priceGemini asinResolved).title
          = "Unspecified") ∧
      (buildProductResponse scraped geminiBrand priceGemini asinResolved).title
        ≠ "") ∧
    ((geminiBrand = "" →
        (buildProductResponse scraped geminiBrand priceGemini asinResolved).brand
          = "Unspecified") ∧
      (buildProductResponse scraped geminiBrand priceGemini asinResolved).brand
        ≠ "") ∧
    ((scraped.itemForm = "" →
        (buildProductResponse scraped geminiBrand priceGemini asinResolved).itemForm
          = "Unspecified") ∧
      (buildProductResponse scraped geminiBrand priceGemini asinResolved).itemForm
        ≠ "") ∧
    ((scraped.price = "" →
        (buildProductResponse scraped geminiBrand priceGemini asinResolved).price
          = "Unspecified") ∧
      (buildProductResponse scraped geminiBrand priceGemini asinResolved).price
        ≠ "") ∧
    ((priceGemini = "" →
        (buildProductResponse scraped geminiBrand priceGemini asinResolved).priceGemini
          = "Unspecified") ∧
      (buildProductResponse scraped geminiBrand priceGemini asinResolved).priceGemini
        ≠ "") ∧
    ((scraped.featuredBullets = "" →
        (buildProductResponse scraped geminiBrand priceGemini asinResolved).featuredBullets
          = "Unspecified") ∧
      (buildProductResponse scraped geminiBrand priceGemini asinResolved).featuredBullets
        ≠ "") ∧
    ((scraped.productDescription = "" →
        (buildProductResponse scraped geminiBrand priceGemini asinResolved).productDescription
          = "Unspecified") ∧
      (buildProductResponse scraped geminiBrand priceGemini asinResolved).productDescription
        ≠ "") ∧
    ((scraped.mainImageUrl = "" →
        (buildProductResponse scraped geminiBrand priceGemini asinResolved).mainImageUrl
          = "Unspecified") ∧
      (buildProductResponse scraped geminiBrand priceGemini asinResolved).mainImageUrl
        ≠ "") ∧
    ((scraped.reviewCount = "" →
        (buildProductResponse scraped geminiBrand priceGemini asinResolved).reviewCount
          = "Unspecified") ∧
      (buildProductResponse scraped geminiBrand priceGemini asinResolved).reviewCount
        ≠ "") ∧
    ((scraped.rating = "" →
        (buildProductResponse scraped geminiBrand priceGemini asinResolved).rating
          = "Unspecified") ∧
      (buildProductResponse scraped geminiBrand priceGemini asinResolved).rating
        ≠ "") ∧
    ((scraped.dateFirstAvailable = "" →
        (buildProductResponse scraped geminiBrand priceGemini asinResolved).dateFirstAvailable
          = "Unspecified") ∧
      (buildProductResponse scraped geminiBrand priceGemini asinResolved).dateFirstAvailable
        ≠ "") ∧
    ((asinResolved = "" →
        (buildProductResponse scraped geminiBrand priceGemini asinResolved).asin
          = "Unspecified") ∧
      (buildProductResponse scraped geminiBrand priceGemini asinResolved).asin
        ≠ "") := by
  dsimp only [buildProductResponse]
  exact ⟨orUnspecified_spec _, orUnspecified_spec _, orUnspecified_spec _,
    orUnspecified_spec _, orUnspecified_spec _, orUnspecified_spec _,
    orUnspecified_spec _, orUnspecified_spec _, orUnspecified_spec _,
    orUnspecified_spec _, orUnspecified_spec _, orUnspecified_spec _⟩

/-- C9 witness: an all-empty extraction yields the sentinel in a
concrete field. -/
theorem productResponse_unspecified_defaults_witness :
    (buildProductResponse ⟨"", "", "", "", "", "", "", "", ""⟩ "" "" "").title
      = "Unspecified" :=
  (productResponse_unspecified_defaults
    ⟨"", "", "", "", "", "", "", "", ""⟩ "" "" "").1.1 rfl

/-! ## C4: idempotence of normalizeGeminiPrice on non-blank input

The proof shows that the output of a non-blank normalization is a fixed
point of every stage of the pipeline: it is trimmed and
whitespace-collapsed, free of NBSP-class and superscript characters,
either contains a decimal group (which disables the comma/space rules)
or matches neither rule, and carries a currency token whenever the DOM
price does. -/

section CharFacts

theorem isDigit_toNat {c : Char} (h : c.isDigit = true) :
    48 ≤ c.toNat ∧ c.toNat ≤ 57 := by
  simp only [Char.isDigit, Bool.and_eq_true, decide_eq_true_eq] at h
  exact ⟨h.1, h.2⟩

theorem isDigit_of_toNat {c : Char} (h1 : 48 ≤ c.toNat) (h2 : c.toNat ≤ 57) :
    c.isDigit = true := by
  simp only [Char.isDigit, Bool.and_eq_true, decide_eq_true_eq]
  exact ⟨h1, h2⟩

theorem not_jsWs_of_isDigit {c : Char} (h : c.isDigit = true) :
    jsWs c = false := by
  rw [Bool.eq_false_iff]
  intro h2
  have h1 := isDigit_toNat h
  simp only [jsWs, Bool.or_eq_true, Bool.and_eq_true, beq_iff_eq,
    decide_eq_true_eq] at h2
  omega

theorem not_isDigit_of_jsWs {c : Char} (h : jsWs c = true) :
    c.isDigit = false := by
  by_contra hc
  rw [Bool.not_eq_false] at hc
  rw [not_jsWs_of_isDigit hc] at h
  cases h

theorem not_isUpperAZ_of_jsWs {c : Char} (h : jsWs c = true) :
    isUpperAZ c = false := by
  rw [Bool.eq_false_iff]
  intro h2
  simp only [jsWs, Bool.or_eq_true, Bool.and_eq_true, beq_iff_eq,
    decide_eq_true_eq] at h
  simp only [isUpperAZ, Bool.and_eq_true, decide_eq_true_eq] at h2
  omega

theorem not_isWordChar_of_jsWs {c : Char} (h : jsWs c = true) :
    isWordChar c = false := by
  rw [Bool.eq_false_iff]
  intro h2
  simp only [jsWs, Bool.or_eq_true, Bool.and_eq_true, beq_iff_eq,
    decide_eq_true_eq] at h
  simp only [isWordChar, Bool.or_eq_true, Bool.and_eq_true, beq_iff_eq,
    decide_eq_true_eq] at h2
  omega

theorem not_isSc_of_jsWs {c : Char} (h : jsWs c = true) : isSc c = false := by
  rw [Bool.eq_false_iff]
  intro h2
  simp only [jsWs, Bool.or_eq_true, Bool.and_eq_true, beq_iff_eq,
    decide_eq_true_eq] at h
  simp only [isSc, Bool.or_eq_true, Bool.and_eq_true, beq_iff_eq,
    decide_eq_true_eq] at h2
  omega

theorem not_isDigit_of_isSc {c : Char} (h : isSc c = true) :
    c.isDigit = false := by
  rw [Bool.eq_false_iff]
  intro h2
  have h1 := isDigit_toNat h2
  simp only [isSc, Bool.or_eq_true, Bool.and_eq_true, beq_iff_eq,
    decide_eq_true_eq] at h
  omega

theorem not_isDigit_of_isUpperAZ {c : Char} (h : isUpperAZ c = true) :
    c.isDigit = false := by
  rw [Bool.eq_false_iff]
  intro h2
  have h1 := isDigit_toNat h2
  simp only [isUpperAZ, Bool.and_eq_true, decide_eq_true_eq] at h
  omega

theorem not_jsWs_of_isSc {c : Char} (h : isSc c = true) : jsWs c = false := by
  by_contra hc
  rw [Bool.not_eq_false] at hc
  rw [not_isSc_of_jsWs hc] at h
  cases h

theorem not_jsWs_of_isUpperAZ {c : Char} (h : isUpperAZ c = true) :
    jsWs c = false := by
  by_contra hc
  rw [Bool.not_eq_false] at hc
  rw [not_isUpperAZ_of_jsWs hc] at h
  cases h

theorem isSupSub_not_jsWs {c : Char} (h : isSupSub c = true) :
    jsWs c = false := by
  rw [Bool.eq_false_iff]
  intro h2
  simp only [isSupSub, Bool.or_eq_true, Bool.and_eq_true, beq_iff_eq,
    decide_eq_true_eq] at h
  simp only [jsWs, Bool.or_eq_true, Bool.and_eq_true, beq_iff_eq,
    decide_eq_true_eq] at h2
  omega

theorem not_isSupSub_of_isSc {c : Char} (h : isSc c = true) :
    isSupSub c = false := by
  rw [Bool.eq_false_iff]
  intro h2
  simp only [isSupSub, Bool.or_eq_true, Bool.and_eq_true, beq_iff_eq,
    decide_eq_true_eq] at h2
  simp only [isSc, Bool.or_eq_true, Bool.and_eq_true, beq_iff_eq,
    decide_eq_true_eq] at h
  omega

theorem not_isSupSub_of_isUpperAZ {c : Char} (h : isUpperAZ c = true) :
    isSupSub c = false := by
  rw [Bool.eq_false_iff]
  intro h2
  simp only [isSupSub, Bool.or_eq_true, Bool.and_eq_true, beq_iff_eq,
    decide_eq_true_eq] at h2
  simp only [isUpperAZ, Bool.and_eq_true, decide_eq_true_eq] at h
  omega

theorem not_isSupSub_of_isDigit {c : Char} (h : c.isDigit = true) :
    isSupSub c = false := by
  rw [Bool.eq_false_iff]
  intro h2
  have h1 := isDigit_toNat h
  simp only [isSupSub, Bool.or_eq_true, Bool.and_eq_true, beq_iff_eq,
    decide_eq_true_eq] at h2
  omega

theorem supMap_isDigit_of_isSupSub {c : Char} (h : isSupSub c = true) :
    (supMap c).isDigit = true := by
  simp only [isSupSub, Bool.or_eq_true, Bool.and_eq_true, beq_iff_eq,
    decide_eq_true_eq] at h
  have h2 : c.toNat = 0x2070 ∨ c.toNat = 0xB9 ∨ c.toNat = 0xB2 ∨
      c.toNat = 0xB3 ∨ c.toNat = 0x2074 ∨ c.toNat = 0x2075 ∨
      c.toNat = 0x2076 ∨ c.toNat = 0x2077 ∨ c.toNat = 0x2078 ∨
      c.toNat = 0x2079 ∨ c.toNat = 0x2080 ∨ c.toNat = 0x2081 ∨
      c.toNat = 0x2082 ∨ c.toNat = 0x2083 ∨ c.toNat = 0x2084 ∨
      c.toNat = 0x2085 ∨ c.toNat = 0x2086 ∨ c.toNat = 0x2087 ∨
      c.toNat = 0x2088 ∨ c.toNat = 0x2089 := by omega
  rcases h2 with h2|h2|h2|h2|h2|h2|h2|h2|h2|h2|h2|h2|h2|h2|h2|h2|h2|h2|h2|h2 <;>
    simp [supMap, h2, Char.isDigit]

theorem supMap_eq_self_of_not_isSupSub {c : Char} (h : isSupSub c = false) :
    supMap c = c := by
  rw [Bool.eq_false_iff] at h
  simp only [ne_eq, isSupSub, Bool.or_eq_true, Bool.and_eq_true, beq_iff_eq,
    decide_eq_true_eq] at h
  have hx0 : ¬((c.toNat == 0x2070 || c.toNat == 0x2080) = true) := by
    simp only [Bool.or_eq_true, beq_iff_eq]
    omega
  have hx1 : ¬((c.toNat == 0xB9 || c.toNat == 0x2081) = true) := by
    simp only [Bool.or_eq_true, beq_iff_eq]
    omega
  have hx2 : ¬((c.toNat == 0xB2 || c.toNat == 0x2082) = true) := by
    simp only [Bool.or_eq_true, beq_iff_eq]
    omega
  have hx3 : ¬((c.toNat == 0xB3 || c.toNat == 0x2083) = true) := by
    simp only [Bool.or_eq_true, beq_iff_eq]
    omega
  have hx4 : ¬((c.toNat == 0x2074 || c.toNat == 0x2084) = true) := by
    simp only [Bool.or_eq_true, beq_iff_eq]
    omega
  have hx5 : ¬((c.toNat == 0x2075 || c.toNat == 0x2085) = true) := by
    simp only [Bool.or_eq_true, beq_iff_eq]
    omega
  have hx6 : ¬((c.toNat == 0x2076 || c.toNat == 0x2086) = true) := by
    simp only [Bool.or_eq_true, beq_iff_eq]
    omega
  have hx7 : ¬((c.toNat == 0x2077 || c.toNat == 0x2087) = true) := by
    simp only [Bool.or_eq_true, beq_iff_eq]
    omega
  have hx8 : ¬((c.toNat == 0x2078 || c.toNat == 0x2088) = true) := by
    simp only [Bool.or_eq_true, beq_iff_eq]
    omega
  have hx9 : ¬((c.toNat == 0x2079 || c.toNat == 0x2089) = true) := by
    simp only [Bool.or_eq_true, beq_iff_eq]
    omega
  simp only [supMap]
  rw [if_neg hx0, if_neg hx1, if_neg hx2, if_neg hx3, if_neg hx4, if_neg hx5, if_neg hx6, if_neg hx7, if_neg hx8, if_neg hx9]

theorem isSupSub_supMap (c : Char) : isSupSub (supMap c) = false := by
  by_cases h : isSupSub c = true
  · exact not_isSupSub_of_isDigit (supMap_isDigit_of_isSupSub h)
  · rw [Bool.not_eq_true] at h
    rw [supMap_eq_self_of_not_isSupSub h]
    exact h

theorem jsWs_supMap {c : Char} (h : jsWs (supMap c) = true) :
    jsWs c = true := by
  by_cases hs : isSupSub c = true
  · have := not_jsWs_of_isDigit (supMap_isDigit_of_isSupSub hs)
    rw [this] at h
    cases h
  · rw [Bool.not_eq_true] at hs
    rwa [supMap_eq_self_of_not_isSupSub hs] at h

theorem nbspToSpace_eq_self_of_not_jsWs {c : Char} (h : jsWs c = false) :
    nbspToSpace c = c := by
  rw [Bool.eq_false_iff] at h
  simp only [nbspToSpace]
  split_ifs with h0
  · exfalso
    apply h
    simp only [Bool.or_eq_true, beq_iff_eq] at h0
    simp only [jsWs, Bool.or_eq_true, Bool.and_eq_true, beq_iff_eq,
      decide_eq_true_eq]
    omega
  · rfl

theorem nbspToSpace_space : nbspToSpace ' ' = ' ' := by decide

theorem jsWs_nbspToSpace {c : Char} (h : jsWs (nbspToSpace c) = true) :
    jsWs c = true := by
  simp only [nbspToSpace] at h
  split_ifs at h with h0
  · simp only [Bool.or_eq_true, beq_iff_eq] at h0
    simp only [jsWs, Bool.or_eq_true, Bool.and_eq_true, beq_iff_eq,
      decide_eq_true_eq]
    omega
  · exact h

theorem jsWs_space : jsWs ' ' = true := by decide

end CharFacts

section TrimFacts

theorem mem_ltrim {c : Char} {l : List Char} (h : c ∈ ltrim l) : c ∈ l :=
  (List.dropWhile_suffix jsWs).subset h

theorem mem_rtrim {c : Char} {l : List Char} (h : c ∈ rtrim l) : c ∈ l := by
  induction l with
  | nil => simp [rtrim] at h
  | cons a r ih =>
    rw [rtrim] at h
    split at h
    · cases h
    · rcases List.mem_cons.mp h with rfl | h2
      · exact List.mem_cons_self _ _
      · exact List.mem_cons_of_mem _ (ih h2)

theorem rtrim_eq_nil_iff {l : List Char} :
    rtrim l = [] ↔ ∀ c ∈ l, jsWs c = true := by
  induction l with
  | nil => simp [rtrim]
  | cons a r ih =>
    rw [rtrim]
    constructor
    · intro h
      split at h
      · next hcond =>
        intro c hc
        rcases List.mem_cons.mp hc with rfl | h2
        · exact hcond.2
        · exact ih.mp hcond.1 c h2
      · cases h
    · intro h
      rw [if_pos ⟨ih.mpr (fun c hc => h c (List.mem_cons_of_mem _ hc)),
        h a (List.mem_cons_self _ _)⟩]

theorem rtrim_cons_of_ne {c : Char} {r : List Char} (h : rtrim r ≠ []) :
    rtrim (c :: r) = c :: rtrim r := by
  rw [rtrim, if_neg]
  intro hc
  exact h hc.1

theorem rtrim_cons_of_not_ws {c : Char} {r : List Char} (h : jsWs c = false) :
    rtrim (c :: r) = c :: rtrim r := by
  rw [rtrim, if_neg]
  intro hc
  rw [h] at hc
  cases hc.2

theorem mem_rtrim_of_not_ws {c : Char} {l : List Char} (hc : c ∈ l)
    (hw : jsWs c = false) : c ∈ rtrim l := by
  induction l with
  | nil => cases hc
  | cons a r ih =>
    rcases List.mem_cons.mp hc with rfl | h2
    · rw [rtrim_cons_of_not_ws hw]
      exact List.mem_cons_self _ _
    · have hr : rtrim r ≠ [] := by
        intro hnil
        have := rtrim_eq_nil_iff.mp hnil c h2
        rw [hw] at this
        cases this
      rw [rtrim_cons_of_ne hr]
      exact List.mem_cons_of_mem _ (ih h2)

theorem mem_ltrim_of_not_ws {c : Char} {l : List Char} (hc : c ∈ l)
    (hw : jsWs c = false) : c ∈ ltrim l := by
  induction l with
  | nil => cases hc
  | cons a r ih =>
    rcases List.mem_cons.mp hc with rfl | h2
    · rw [ltrim, List.dropWhile_cons, if_neg (by rw [hw]; simp)]
      exact List.mem_cons_self _ _
    · by_cases ha : jsWs a = true
      · rw [ltrim, List.dropWhile_cons, if_pos (by rw [ha])]
        exact ih h2
      · rw [Bool.not_eq_true] at ha
        rw [ltrim, List.dropWhile_cons, if_neg (by rw [ha]; simp)]
        exact List.mem_cons_of_mem _ h2

theorem mem_jsTrim_of_not_ws {c : Char} {l : List Char} (hc : c ∈ l)
    (hw : jsWs c = false) : c ∈ jsTrim l :=
  mem_rtrim_of_not_ws (mem_ltrim_of_not_ws hc hw) hw

theorem jsTrim_ne_nil_of_mem {c : Char} {l : List Char} (hc : c ∈ l)
    (hw : jsWs c = false) : jsTrim l ≠ [] := by
  intro h
  have := mem_jsTrim_of_not_ws hc hw
  rw [h] at this
  exact absurd this (List.not_mem_nil c)

theorem exists_not_ws_of_jsTrim_ne_nil {l : List Char} (h : jsTrim l ≠ []) :
    ∃ c ∈ l, jsWs c = false := by
  by_contra hc
  push_neg at hc
  apply h
  unfold jsTrim
  rw [rtrim_eq_nil_iff]
  intro c hcl
  have := hc c (mem_ltrim hcl)
  simpa using this

theorem ltrim_head_not_ws {c : Char} {r l : List Char}
    (h : ltrim l = c :: r) : jsWs c = false := by
  induction l with
  | nil => cases h
  | cons a t ih =>
    rw [ltrim, List.dropWhile_cons] at h
    split at h
    · exact ih h
    · next hcond =>
      cases h
      simpa using hcond

theorem rtrim_getLast_not_ws {l : List Char} {c : Char}
    (h : (rtrim l).getLast? = some c) : jsWs c = false := by
  induction l with
  | nil => simp [rtrim] at h
  | cons a r ih =>
    rw [rtrim] at h
    split at h
    · cases h
    · next hcond =>
      rcases hr : rtrim r with _ | ⟨b, t⟩
      · rw [hr] at h
        simp only [List.getLast?_singleton, Option.some.injEq] at h
        subst h
        rw [Bool.eq_false_iff]
        intro hws
        exact hcond ⟨hr, hws⟩
      · rw [hr, List.getLast?_cons_cons] at h
        apply ih
        rw [hr]
        exact h

theorem rtrim_eq_self_of_getLast {l : List Char}
    (h : ∀ c, l.getLast? = some c → jsWs c = false) : rtrim l = l := by
  induction l with
  | nil => rfl
  | cons a r ih =>
    cases r with
    | nil =>
      have ha := h a (by simp)
      rw [rtrim, if_neg]
      · simp [rtrim]
      · intro hc
        rw [ha] at hc
        cases hc.2
    | cons b t =>
      have hr : rtrim (b :: t) = b :: t := by
        apply ih
        intro c hc
        apply h
        rwa [List.getLast?_cons_cons]
      rw [rtrim_cons_of_ne (by rw [hr]; simp), hr]

theorem ltrim_eq_self_of_head {l : List Char}
    (h : ∀ c r, l = c :: r → jsWs c = false) : ltrim l = l := by
  cases l with
  | nil => rfl
  | cons a r =>
    rw [ltrim, List.dropWhile_cons, if_neg]
    rw [h a r rfl]
    simp

theorem rtrim_prefix (l : List Char) : rtrim l <+: l := by
  induction l with
  | nil => exact List.prefix_refl _
  | cons a r ih =>
    rw [rtrim]
    split
    · exact List.nil_prefix
    · exact List.cons_prefix_cons.mpr ⟨rfl, ih⟩

theorem map_eq_self_of_mem {f : Char → Char} {l : List Char}
    (h : ∀ c ∈ l, f c = c) : l.map f = l := by
  induction l with
  | nil => rfl
  | cons a r ih =>
    rw [List.map_cons, h a (List.mem_cons_self _ _),
      ih (fun c hc => h c (List.mem_cons_of_mem _ hc))]

end TrimFacts

section CollapseFacts

theorem collapse_cons_ws {c : Char} {r : List Char} (h : jsWs c = true) :
    collapse (c :: r) = ' ' :: collapseWs r := by
  rw [collapse, if_pos h]

theorem collapse_cons_not_ws {c : Char} {r : List Char} (h : jsWs c = false) :
    collapse (c :: r) = c :: collapse r := by
  rw [collapse, if_neg (by rw [h]; simp)]

theorem collapseWs_cons_ws {c : Char} {r : List Char} (h : jsWs c = true) :
    collapseWs (c :: r) = collapseWs r := by
  rw [collapseWs, if_pos h]

theorem collapseWs_cons_not_ws {c : Char} {r : List Char}
    (h : jsWs c = false) : collapseWs (c :: r) = c :: collapse r := by
  rw [collapseWs, if_neg (by rw [h]; simp)]

theorem collapse_ne_nil {l : List Char} (h : l ≠ []) : collapse l ≠ [] := by
  cases l with
  | nil => exact absurd rfl h
  | cons a r =>
    by_cases ha : jsWs a = true
    · rw [collapse_cons_ws ha]
      simp
    · rw [Bool.not_eq_true] at ha
      rw [collapse_cons_not_ws ha]
      simp

theorem mem_collapse_spec :
    ∀ l : List Char,
      (∀ c ∈ collapse l, c = ' ' ∨ (c ∈ l ∧ jsWs c = false)) ∧
      (∀ c ∈ collapseWs l, c = ' ' ∨ (c ∈ l ∧ jsWs c = false)) := by
  intro l
  induction l with
  | nil => constructor <;> (intro c hc; simp [collapse, collapseWs] at hc)
  | cons a r ih =>
    have lift : ∀ c : Char,
        c = ' ' ∨ (c ∈ r ∧ jsWs c = false) →
        c = ' ' ∨ (c ∈ a :: r ∧ jsWs c = false) := by
      rintro c (h | ⟨h1, h2⟩)
      · exact Or.inl h
      · exact Or.inr ⟨List.mem_cons_of_mem _ h1, h2⟩
    constructor
    · intro c hc
      by_cases ha : jsWs a = true
      · rw [collapse_cons_ws ha] at hc
        rcases List.mem_cons.mp hc with rfl | hc2
        · exact Or.inl rfl
        · exact lift c (ih.2 c hc2)
      · rw [Bool.not_eq_true] at ha
        rw [collapse_cons_not_ws ha] at hc
        rcases List.mem_cons.mp hc with rfl | hc2
        · exact Or.inr ⟨List.mem_cons_self _ _, ha⟩
        · exact lift c (ih.1 c hc2)
    · intro c hc
      by_cases ha : jsWs a = true
      · rw [collapseWs_cons_ws ha] at hc
        exact lift c (ih.2 c hc)
      · rw [Bool.not_eq_true] at ha
        rw [collapseWs_cons_not_ws ha] at hc
        rcases List.mem_cons.mp hc with rfl | hc2
        · exact Or.inr ⟨List.mem_cons_self _ _, ha⟩
        · exact lift c (ih.1 c hc2)

theorem mem_collapse_of_not_ws {c : Char} :
    ∀ {l : List Char}, c ∈ l → jsWs c = false →
      c ∈ collapse l ∧ c ∈ collapseWs l := by
  intro l
  induction l with
  | nil => intro hc; cases hc
  | cons a r ih =>
    intro hc hw
    rcases List.mem_cons.mp hc with rfl | h2
    · rw [collapse_cons_not_ws hw, collapseWs_cons_not_ws hw]
      exact ⟨List.mem_cons_self _ _, List.mem_cons_self _ _⟩
    · by_cases ha : jsWs a = true
      · rw [collapse_cons_ws ha, collapseWs_cons_ws ha]
        exact ⟨List.mem_cons_of_mem _ (ih h2 hw).2, (ih h2 hw).2⟩
      · rw [Bool.not_eq_true] at ha
        rw [collapse_cons_not_ws ha, collapseWs_cons_not_ws ha]
        exact ⟨List.mem_cons_of_mem _ (ih h2 hw).1,
          List.mem_cons_of_mem _ (ih h2 hw).1⟩

theorem collapseWs_head_not_ws :
    ∀ {l r : List Char} {c : Char}, collapseWs l = c :: r →
      jsWs c = false := by
  intro l
  induction l with
  | nil => intro r c h; simp [collapseWs] at h
  | cons a t ih =>
    intro r c h
    by_cases ha : jsWs a = true
    · rw [collapseWs_cons_ws ha] at h
      exact ih h
    · rw [Bool.not_eq_true] at ha
      rw [collapseWs_cons_not_ws ha] at h
      cases h
      exact ha

theorem chain_collapse :
    ∀ l : List Char,
      List.Chain' (fun a b => ¬(jsWs a = true ∧ jsWs b = true)) (collapse l) ∧
      List.Chain' (fun a b => ¬(jsWs a = true ∧ jsWs b = true))
        (collapseWs l) := by
  intro l
  induction l with
  | nil => simp [collapse, collapseWs]
  | cons a r ih =>
    have h1 : List.Chain' (fun a b => ¬(jsWs a = true ∧ jsWs b = true))
        (' ' :: collapseWs r) := by
      rw [List.chain'_cons']
      refine ⟨?_, ih.2⟩
      intro b hb
      rcases hh : collapseWs r with _ | ⟨c0, r0⟩
      · rw [hh] at hb
        simp at hb
      · rw [hh] at hb
        simp only [List.head?_cons, Option.mem_def, Option.some.injEq] at hb
        subst hb
        intro hcontra
        rw [collapseWs_head_not_ws hh] at hcontra
        cases hcontra.2
    have h2 : ∀ t : List Char,
        List.Chain' (fun a b => ¬(jsWs a = true ∧ jsWs b = true)) t →
        jsWs a = false →
        List.Chain' (fun a b => ¬(jsWs a = true ∧ jsWs b = true))
          (a :: t) := by
      intro t ht ha
      rw [List.chain'_cons']
      refine ⟨?_, ht⟩
      intro b _
      intro hcontra
      rw [ha] at hcontra
      cases hcontra.1
    constructor
    · by_cases ha : jsWs a = true
      · rw [collapse_cons_ws ha]
        exact h1
      · rw [Bool.not_eq_true] at ha
        rw [collapse_cons_not_ws ha]
        exact h2 _ ih.1 ha
    · by_cases ha : jsWs a = true
      · rw [collapseWs_cons_ws ha]
        exact ih.2
      · rw [Bool.not_eq_true] at ha
        rw [collapseWs_cons_not_ws ha]
        exact h2 _ ih.1 ha

theorem collapse_eq_self :
    ∀ {l : List Char},
      (∀ c ∈ l, jsWs c = true → c = ' ') →
      List.Chain' (fun a b => ¬(jsWs a = true ∧ jsWs b = true)) l →
      collapse l = l := by
  intro l
  induction l with
  | nil => intro _ _; rfl
  | cons a r ih =>
    intro hs hc
    have hcr : List.Chain' (fun a b => ¬(jsWs a = true ∧ jsWs b = true)) r :=
      (List.chain'_cons'.mp hc).2
    have hsr : ∀ c ∈ r, jsWs c = true → c = ' ' :=
      fun c h1 h2 => hs c (List.mem_cons_of_mem _ h1) h2
    by_cases ha : jsWs a = true
    · have haSpace := hs a (List.mem_cons_self _ _) ha
      subst haSpace
      rw [collapse_cons_ws ha]
      congr 1
      cases r with
      | nil => rfl
      | cons d r2 =>
        have hd : jsWs d = false := by
          have := (List.chain'_cons'.mp hc).1 d (by simp)
          rw [Bool.eq_false_iff]
          intro hdw
          exact this ⟨ha, hdw⟩
        rw [collapseWs_cons_not_ws hd]
        have := ih hsr hcr
        rw [collapse_cons_not_ws hd] at this
        exact this
    · rw [Bool.not_eq_true] at ha
      rw [collapse_cons_not_ws ha, ih hsr hcr]

end CollapseFacts

section ScannerFacts

theorem jsWs_dot : jsWs '.' = false := by decide

theorem jsWs_comma : jsWs ',' = false := by decide

theorem isDigit_dot : ('.').isDigit = false := by decide

theorem isDigit_comma : (',').isDigit = false := by decide

theorem isDigit_space : (' ').isDigit = false := by decide

theorem hasDec_cons (c : Char) (r : List Char) :
    hasDec (c :: r) = (decAtHead (c :: r) || hasDec r) := rfl

theorem hasDec_cons_of {c : Char} {r : List Char} (h : hasDec r = true) :
    hasDec (c :: r) = true := by
  rw [hasDec_cons, h, Bool.or_true]

theorem hasDec_append {l x : List Char} (h : hasDec l = true) :
    hasDec (x ++ l) = true := by
  induction x with
  | nil => exact h
  | cons a t ih => exact hasDec_cons_of ih

theorem decAtHead_pattern {d c1 c2 : Char} {rest : List Char}
    (hd : d.isDigit = true) (h1 : c1.isDigit = true) (h2 : c2.isDigit = true) :
    decAtHead (d :: '.' :: c1 :: c2 :: rest) = true := by
  simp [decAtHead, hd, h1, h2]

theorem hasDec_parts {dl : List Char} (hne : dl ≠ [])
    (hdig : ∀ c ∈ dl, c.isDigit = true) {d1 d2 : Char} {rest : List Char}
    (h1 : d1.isDigit = true) (h2 : d2.isDigit = true) :
    hasDec (dl ++ '.' :: d1 :: d2 :: rest) = true := by
  induction dl with
  | nil => exact absurd rfl hne
  | cons a t ih =>
    cases t with
    | nil =>
      rw [List.cons_append, List.nil_append, hasDec_cons,
        decAtHead_pattern (hdig a (List.mem_cons_self _ _)) h1 h2,
        Bool.true_or]
    | cons b t2 =>
      rw [List.cons_append, hasDec_cons,
        ih (by simp) (fun c hc => hdig c (List.mem_cons_of_mem _ hc)),
        Bool.or_true]

theorem decAtHead_structure {l : List Char} (h : decAtHead l = true) :
    ∃ d c1 c2 rest, l = d :: '.' :: c1 :: c2 :: rest ∧
      d.isDigit = true ∧ c1.isDigit = true ∧ c2.isDigit = true := by
  rcases l with _ | ⟨d, _ | ⟨x, _ | ⟨c1, _ | ⟨c2, rest⟩⟩⟩⟩
  · cases h
  · cases h
  · cases h
  · cases h
  · simp only [decAtHead, Bool.and_eq_true, beq_iff_eq] at h
    exact ⟨d, c1, c2, rest, by rw [h.1.1.2], h.1.1.1, h.1.2, h.2⟩

theorem decAtHead_false_of_head {c : Char} {r : List Char}
    (h : c.isDigit = false) : decAtHead (c :: r) = false := by
  rcases r with _ | ⟨x, _ | ⟨y, _ | ⟨z, r4⟩⟩⟩
  · rfl
  · rfl
  · rfl
  · simp [decAtHead, h]

theorem bOk_collapse_of {x : List Char} (h : bOk x = true) :
    bOk (collapse x) = true := by
  cases x with
  | nil => rfl
  | cons f x2 =>
    by_cases hf : jsWs f = true
    · rw [collapse_cons_ws hf]
      show (!isWordChar ' ') = true
      decide
    · rw [Bool.not_eq_true] at hf
      rw [collapse_cons_not_ws hf]
      exact h

theorem bOk_of_bOk_collapse {x : List Char} (h : bOk (collapse x) = true) :
    bOk x = true := by
  cases x with
  | nil => rfl
  | cons f x2 =>
    by_cases hf : jsWs f = true
    · show (!isWordChar f) = true
      rw [not_isWordChar_of_jsWs hf]
      rfl
    · rw [Bool.not_eq_true] at hf
      rw [collapse_cons_not_ws hf] at h
      exact h

theorem rtrim_inv {x y : List Char} {d : Char} (h : rtrim x = d :: y) :
    ∃ x2, x = d :: x2 ∧ rtrim x2 = y := by
  cases x with
  | nil => cases h
  | cons c x2 =>
    rw [rtrim] at h
    split at h
    · cases h
    · rw [List.cons.injEq] at h
      exact ⟨x2, by rw [h.1], h.2⟩

theorem bOk_of_bOk_rtrim {x : List Char} (h : bOk (rtrim x) = true) :
    bOk x = true := by
  rcases hr : rtrim x with _ | ⟨g, y⟩
  · cases x with
    | nil => rfl
    | cons f x2 =>
      have := rtrim_eq_nil_iff.mp hr f (List.mem_cons_self _ _)
      show (!isWordChar f) = true
      rw [not_isWordChar_of_jsWs this]
      rfl
  · obtain ⟨x2, rfl, -⟩ := rtrim_inv hr
    rw [hr] at h
    exact h

theorem tailMatchC_cons_digit {a : Char} {x : List Char}
    (h : a.isDigit = true) : tailMatchC (a :: x) = tailMatchC x := by
  unfold tailMatchC
  rw [List.dropWhile_cons, if_pos (by rw [h])]

theorem tailMatchC_cons_other {a : Char} {x : List Char}
    (h : a.isDigit = false) (hc : a ≠ ',') : tailMatchC (a :: x) = false := by
  unfold tailMatchC
  rw [List.dropWhile_cons, if_neg (by rw [h]; simp)]
  rcases x with _ | ⟨x1, _ | ⟨x2, x3⟩⟩
  · rfl
  · rfl
  · simp [hc]

theorem tailMatchC_comma_iff {x : List Char} :
    tailMatchC (',' :: x) = true ↔
      ∃ d1 d2 r, x = d1 :: d2 :: r ∧ d1.isDigit = true ∧ d2.isDigit = true ∧
        bOk r = true := by
  unfold tailMatchC
  rw [List.dropWhile_cons, if_neg (by rw [isDigit_comma]; simp)]
  constructor
  · intro h
    rcases x with _ | ⟨d1, _ | ⟨d2, r⟩⟩
    · cases h
    · cases h
    · simp only [Bool.and_eq_true, beq_iff_eq] at h
      exact ⟨d1, d2, r, rfl, h.1.1.2, h.1.2, h.2⟩
  · rintro ⟨d1, d2, r, rfl, h1, h2, h3⟩
    simp [h1, h2, h3]

theorem matchCAt_cons (c : Char) (r : List Char) :
    matchCAt (c :: r) = (c.isDigit && tailMatchC r) := rfl

theorem grpC_cons (c : Char) (r : List Char) :
    grpC (c :: r) = (matchCAt (c :: r) || grpC r) := rfl

theorem grpC_cons_of {c : Char} {r : List Char} (h : grpC r = true) :
    grpC (c :: r) = true := by
  rw [grpC_cons, h, Bool.or_true]

theorem grpC_cons_not_digit {c : Char} {l : List Char}
    (h : c.isDigit = false) : grpC (c :: l) = grpC l := by
  rw [grpC_cons, matchCAt_cons, h]
  simp

theorem commaStep_id_of_not_grpC {l : List Char} (h : grpC l = false) :
    commaStep l = l := by
  induction l with
  | nil => rfl
  | cons a r ih =>
    rw [grpC_cons, Bool.or_eq_false_iff] at h
    rw [commaStep]
    rw [if_neg (by rw [h.1]; simp), ih h.2]

theorem hasDec_commaStep {l : List Char} (h : grpC l = true) :
    hasDec (commaStep l) = true := by
  induction l with
  | nil => cases h
  | cons a r ih =>
    rw [commaStep]
    by_cases hm : matchCAt (a :: r) = true
    · rw [if_pos hm]
      rw [matchCAt_cons, Bool.and_eq_true] at hm
      obtain ⟨ha, ht⟩ := hm
      rw [List.takeWhile_cons, if_pos (by rw [ha]),
        List.dropWhile_cons, if_pos (by rw [ha])]
      unfold tailMatchC at ht
      rcases hdw : r.dropWhile Char.isDigit with _ | ⟨x, _ | ⟨d1, _ | ⟨d2, rest⟩⟩⟩ <;>
        rw [hdw] at ht
      · cases ht
      · cases ht
      · cases ht
      · simp only [Bool.and_eq_true, beq_iff_eq] at ht
        obtain ⟨⟨⟨hx, h1⟩, h2⟩, h3⟩ := ht
        subst hx
        show hasDec ((a :: r.takeWhile Char.isDigit) ++
          '.' :: d1 :: d2 :: rest) = true
        refine hasDec_parts (by simp) ?_ h1 h2
        intro c hc
        rcases List.mem_cons.mp hc with rfl | hc2
        · exact ha
        · exact List.mem_takeWhile_imp hc2
    · rw [if_neg hm]
      rw [grpC_cons] at h
      rw [Bool.not_eq_true] at hm
      rw [hm, Bool.false_or] at h
      exact hasDec_cons_of (ih h)

theorem tailMatchS_cons_digit {a : Char} {x : List Char}
    (h : a.isDigit = true) : tailMatchS (a :: x) = tailMatchS x := by
  unfold tailMatchS
  rw [List.dropWhile_cons, if_pos (by rw [h])]

theorem tailMatchS_cons_other {a : Char} {x : List Char}
    (h : a.isDigit = false) (hw : jsWs a = false) :
    tailMatchS (a :: x) = false := by
  unfold tailMatchS
  rw [List.dropWhile_cons, if_neg (by rw [h]; simp)]
  simp [hw]

theorem tailMatchS_ws_iff {a : Char} {x : List Char} (ha : jsWs a = true) :
    tailMatchS (a :: x) = true ↔
      ∃ d1 d2 r, x.dropWhile jsWs = d1 :: d2 :: r ∧ d1.isDigit = true ∧
        d2.isDigit = true ∧ bOk r = true := by
  unfold tailMatchS
  rw [List.dropWhile_cons,
    if_neg (by rw [not_isDigit_of_jsWs ha]; simp)]
  simp only [ha, Bool.true_and]
  constructor
  · intro h
    rcases hdw : x.dropWhile jsWs with _ | ⟨d1, _ | ⟨d2, r⟩⟩ <;>
      rw [hdw] at h
    · cases h
    · cases h
    · simp only [Bool.and_eq_true] at h
      exact ⟨d1, d2, r, rfl, h.1.1, h.1.2, h.2⟩
  · rintro ⟨d1, d2, r, hdw, h1, h2, h3⟩
    rw [hdw]
    simp [h1, h2, h3]

theorem matchSAt_cons (c : Char) (r : List Char) :
    matchSAt (c :: r) = (c.isDigit && tailMatchS r) := rfl

theorem grpS_cons (c : Char) (r : List Char) :
    grpS (c :: r) = (matchSAt (c :: r) || grpS r) := rfl

theorem grpS_cons_of {c : Char} {r : List Char} (h : grpS r = true) :
    grpS (c :: r) = true := by
  rw [grpS_cons, h, Bool.or_true]

theorem grpS_cons_not_digit {c : Char} {l : List Char}
    (h : c.isDigit = false) : grpS (c :: l) = grpS l := by
  rw [grpS_cons, matchSAt_cons, h]
  simp

theorem spaceStep_id_of_not_grpS {l : List Char} (h : grpS l = false) :
    spaceStep l = l := by
  induction l with
  | nil => rfl
  | cons a r ih =>
    rw [grpS_cons, Bool.or_eq_false_iff] at h
    rw [spaceStep]
    rw [if_neg (by rw [h.1]; simp), ih h.2]

theorem hasDec_spaceStep {l : List Char} (h : grpS l = true) :
    hasDec (spaceStep l) = true := by
  induction l with
  | nil => cases h
  | cons a r ih =>
    rw [spaceStep]
    by_cases hm : matchSAt (a :: r) = true
    · rw [if_pos hm]
      rw [matchSAt_cons, Bool.and_eq_true] at hm
      obtain ⟨ha, ht⟩ := hm
      rw [List.takeWhile_cons, if_pos (by rw [ha]),
        List.dropWhile_cons, if_pos (by rw [ha])]
      unfold tailMatchS at ht
      rcases hdw : r.dropWhile Char.isDigit with _ | ⟨w, rest⟩ <;>
        rw [hdw] at ht
      · cases ht
      · rw [Bool.and_eq_true] at ht
        obtain ⟨hws, ht2⟩ := ht
        rcases hdw2 : rest.dropWhile jsWs with _ | ⟨d1, _ | ⟨d2, r2⟩⟩ <;>
          rw [hdw2] at ht2
        · cases ht2
        · cases ht2
        · simp only [Bool.and_eq_true] at ht2
          obtain ⟨⟨h1, h2⟩, h3⟩ := ht2
          rw [List.dropWhile_cons, if_pos (by rw [hws]), hdw2]
          show hasDec ((a :: r.takeWhile Char.isDigit) ++
            '.' :: d1 :: d2 :: r2) = true
          refine hasDec_parts (by simp) ?_ h1 h2
          intro c hc
          rcases List.mem_cons.mp hc with rfl | hc2
          · exact ha
          · exact List.mem_takeWhile_imp hc2
    · rw [if_neg hm]
      rw [grpS_cons] at h
      rw [Bool.not_eq_true] at hm
      rw [hm, Bool.false_or] at h
      exact hasDec_cons_of (ih h)

theorem collapse_cons_inv {x y : List Char} {d : Char}
    (h : collapse x = d :: y) (hd : jsWs d = false) :
    ∃ x2, x = d :: x2 ∧ collapse x2 = y := by
  cases x with
  | nil => cases h
  | cons e x2 =>
    by_cases he : jsWs e = true
    · rw [collapse_cons_ws he] at h
      rw [List.cons.injEq] at h
      rw [← h.1] at hd
      rw [jsWs_space] at hd
      cases hd
    · rw [Bool.not_eq_true] at he
      rw [collapse_cons_not_ws he] at h
      rw [List.cons.injEq] at h
      exact ⟨x2, by rw [h.1], h.2⟩

theorem collapseWs_inv {x y : List Char} {d : Char}
    (h : collapseWs x = d :: y) :
    ∃ pre x2, x = pre ++ d :: x2 ∧ (∀ c ∈ pre, jsWs c = true) ∧
      collapse x2 = y := by
  induction x generalizing d y with
  | nil => cases h
  | cons e x2 ih =>
    by_cases he : jsWs e = true
    · rw [collapseWs_cons_ws he] at h
      obtain ⟨pre, x3, hx, hpre, hcol⟩ := ih h
      refine ⟨e :: pre, x3, by simp [hx], ?_, hcol⟩
      intro c hc
      rcases List.mem_cons.mp hc with rfl | hc2
      · exact he
      · exact hpre c hc2
    · rw [Bool.not_eq_true] at he
      rw [collapseWs_cons_not_ws he] at h
      rw [List.cons.injEq] at h
      refine ⟨[], x2, ?_, ?_, h.2⟩
      · rw [h.1]
        rfl
      · intro c hc
        cases hc

theorem dropWhile_jsWs_pre {pre x2 : List Char} {d : Char}
    (hpre : ∀ c ∈ pre, jsWs c = true) (hd : jsWs d = false) :
    List.dropWhile jsWs (pre ++ d :: x2) = d :: x2 := by
  induction pre with
  | nil =>
    rw [List.nil_append, List.dropWhile_cons, if_neg (by rw [hd]; simp)]
  | cons a t ih =>
    rw [List.cons_append, List.dropWhile_cons,
      if_pos (by rw [hpre a (List.mem_cons_self _ _)])]
    exact ih (fun c hc => hpre c (List.mem_cons_of_mem _ hc))

theorem hasDec_collapse :
    ∀ l : List Char,
      (hasDec l = true → hasDec (collapse l) = true) ∧
      (hasDec l = true → hasDec (collapseWs l) = true) := by
  intro l
  induction l with
  | nil => exact ⟨(fun h => nomatch h), (fun h => nomatch h)⟩
  | cons a r ih =>
    have hhead : decAtHead (a :: r) = true →
        hasDec (a :: collapse r) = true := by
      intro hda
      obtain ⟨d, c1, c2, rest, heq, hd, h1, h2⟩ := decAtHead_structure hda
      rw [List.cons.injEq] at heq
      obtain ⟨rfl, hr⟩ := heq
      subst hr
      rw [collapse_cons_not_ws jsWs_dot,
        collapse_cons_not_ws (not_jsWs_of_isDigit h1),
        collapse_cons_not_ws (not_jsWs_of_isDigit h2)]
      rw [hasDec_cons, decAtHead_pattern hd h1 h2, Bool.true_or]
    constructor
    · intro h
      rw [hasDec_cons] at h
      rcases Bool.or_eq_true_iff.mp h with hda | hdr
      · have hd : a.isDigit = true := by
          obtain ⟨d, c1, c2, rest, heq, hd, -, -⟩ := decAtHead_structure hda
          rw [List.cons.injEq] at heq
          rw [heq.1]
          exact hd
        rw [collapse_cons_not_ws (not_jsWs_of_isDigit hd)]
        exact hhead hda
      · by_cases ha : jsWs a = true
        · rw [collapse_cons_ws ha]
          exact hasDec_cons_of ((ih.2) hdr)
        · rw [Bool.not_eq_true] at ha
          rw [collapse_cons_not_ws ha]
          exact hasDec_cons_of ((ih.1) hdr)
    · intro h
      rw [hasDec_cons] at h
      rcases Bool.or_eq_true_iff.mp h with hda | hdr
      · have hd : a.isDigit = true := by
          obtain ⟨d, c1, c2, rest, heq, hd, -, -⟩ := decAtHead_structure hda
          rw [List.cons.injEq] at heq
          rw [heq.1]
          exact hd
        rw [collapseWs_cons_not_ws (not_jsWs_of_isDigit hd)]
        exact hhead hda
      · by_cases ha : jsWs a = true
        · rw [collapseWs_cons_ws ha]
          exact (ih.2) hdr
        · rw [Bool.not_eq_true] at ha
          rw [collapseWs_cons_not_ws ha]
          exact hasDec_cons_of ((ih.1) hdr)

theorem tailMatchC_collapse :
    ∀ r : List Char, tailMatchC (collapse r) = true → tailMatchC r = true := by
  intro r
  induction r with
  | nil => intro h; cases h
  | cons a r2 ih =>
    intro h
    by_cases hd : a.isDigit = true
    · rw [collapse_cons_not_ws (not_jsWs_of_isDigit hd),
        tailMatchC_cons_digit hd] at h
      rw [tailMatchC_cons_digit hd]
      exact ih h
    · rw [Bool.not_eq_true] at hd
      by_cases hw : jsWs a = true
      · rw [collapse_cons_ws hw,
          tailMatchC_cons_other isDigit_space (by decide)] at h
        cases h
      · rw [Bool.not_eq_true] at hw
        rw [collapse_cons_not_ws hw] at h
        by_cases hc : a = ','
        · subst hc
          obtain ⟨d1, d2, r3, hshape, h1, h2, h3⟩ :=
            tailMatchC_comma_iff.mp h
          obtain ⟨x2, rfl, hcol2⟩ :=
            collapse_cons_inv hshape (not_jsWs_of_isDigit h1)
          obtain ⟨x3, rfl, hcol3⟩ :=
            collapse_cons_inv hcol2 (not_jsWs_of_isDigit h2)
          rw [← hcol3] at h3
          exact tailMatchC_comma_iff.mpr
            ⟨d1, d2, x3, rfl, h1, h2, bOk_of_bOk_collapse h3⟩
        · rw [tailMatchC_cons_other hd hc] at h
          cases h

theorem grpC_collapse :
    ∀ l : List Char,
      (grpC (collapse l) = true → grpC l = true) ∧
      (grpC (collapseWs l) = true → grpC l = true) := by
  intro l
  induction l with
  | nil => exact ⟨(fun h => nomatch h), (fun h => nomatch h)⟩
  | cons a r ih =>
    have hcons : grpC (a :: collapse r) = true → grpC (a :: r) = true := by
      intro h
      rw [grpC_cons, matchCAt_cons] at h
      rcases Bool.or_eq_true_iff.mp h with hm | hg
      · rw [Bool.and_eq_true] at hm
        rw [grpC_cons, matchCAt_cons, hm.1,
          tailMatchC_collapse r hm.2]
        simp
      · exact grpC_cons_of ((ih.1) hg)
    constructor
    · intro h
      by_cases ha : jsWs a = true
      · rw [collapse_cons_ws ha, grpC_cons, matchCAt_cons] at h
        rcases Bool.or_eq_true_iff.mp h with hm | hg
        · rw [Bool.and_eq_true] at hm
          rw [isDigit_space] at hm
          cases hm.1
        · exact grpC_cons_of ((ih.2) hg)
      · rw [Bool.not_eq_true] at ha
        rw [collapse_cons_not_ws ha] at h
        exact hcons h
    · intro h
      by_cases ha : jsWs a = true
      · rw [collapseWs_cons_ws ha] at h
        exact grpC_cons_of ((ih.2) h)
      · rw [Bool.not_eq_true] at ha
        rw [collapseWs_cons_not_ws ha] at h
        exact hcons h

theorem dropWhile_jsWs_collapseWs (x : List Char) :
    List.dropWhile jsWs (collapseWs x) = collapseWs x := by
  rcases hc : collapseWs x with _ | ⟨c, y⟩
  · rfl
  · rw [List.dropWhile_cons,
      if_neg (by rw [collapseWs_head_not_ws hc]; simp)]

theorem tailMatchS_collapse :
    ∀ r : List Char, tailMatchS (collapse r) = true → tailMatchS r = true := by
  intro r
  induction r with
  | nil => intro h; cases h
  | cons a r2 ih =>
    intro h
    by_cases hd : a.isDigit = true
    · rw [collapse_cons_not_ws (not_jsWs_of_isDigit hd),
        tailMatchS_cons_digit hd] at h
      rw [tailMatchS_cons_digit hd]
      exact ih h
    · rw [Bool.not_eq_true] at hd
      by_cases hw : jsWs a = true
      · rw [collapse_cons_ws hw] at h
        obtain ⟨d1, d2, r3, hshape, h1, h2, h3⟩ :=
          (tailMatchS_ws_iff jsWs_space).mp h
        rw [dropWhile_jsWs_collapseWs] at hshape
        obtain ⟨pre, x2, rfl, hpre, hcol2⟩ := collapseWs_inv hshape
        obtain ⟨x3, rfl, hcol3⟩ :=
          collapse_cons_inv hcol2 (not_jsWs_of_isDigit h2)
        rw [← hcol3] at h3
        refine (tailMatchS_ws_iff hw).mpr ⟨d1, d2, x3, ?_, h1, h2,
          bOk_of_bOk_collapse h3⟩
        exact dropWhile_jsWs_pre hpre (not_jsWs_of_isDigit h1)
      · rw [Bool.not_eq_true] at hw
        rw [collapse_cons_not_ws hw, tailMatchS_cons_other hd hw] at h
        cases h

theorem grpS_collapse :
    ∀ l : List Char,
      (grpS (collapse l) = true → grpS l = true) ∧
      (grpS (collapseWs l) = true → grpS l = true) := by
  intro l
  induction l with
  | nil => exact ⟨(fun h => nomatch h), (fun h => nomatch h)⟩
  | cons a r ih =>
    have hcons : grpS (a :: collapse r) = true → grpS (a :: r) = true := by
      intro h
      rw [grpS_cons, matchSAt_cons] at h
      rcases Bool.or_eq_true_iff.mp h with hm | hg
      · rw [Bool.and_eq_true] at hm
        rw [grpS_cons, matchSAt_cons, hm.1, tailMatchS_collapse r hm.2]
        simp
      · exact grpS_cons_of ((ih.1) hg)
    constructor
    · intro h
      by_cases ha : jsWs a = true
      · rw [collapse_cons_ws ha, grpS_cons, matchSAt_cons] at h
        rcases Bool.or_eq_true_iff.mp h with hm | hg
        · rw [Bool.and_eq_true] at hm
          rw [isDigit_space] at hm
          cases hm.1
        · exact grpS_cons_of ((ih.2) hg)
      · rw [Bool.not_eq_true] at ha
        rw [collapse_cons_not_ws ha] at h
        exact hcons h
    · intro h
      by_cases ha : jsWs a = true
      · rw [collapseWs_cons_ws ha] at h
        exact grpS_cons_of ((ih.2) h)
      · rw [Bool.not_eq_true] at ha
        rw [collapseWs_cons_not_ws ha] at h
        exact hcons h

theorem curTokAux_sc {p : Bool} {c : Char} {r : List Char}
    (h : isSc c = true) : curTokAux p (c :: r) = some [c] := by
  rw [curTokAux, if_pos h]

theorem curTokAux_step {p : Bool} {c : Char} {r : List Char}
    (hsc : isSc c = false)
    (htr : (if p = true then none else tripleAt c r) = none) :
    curTokAux p (c :: r) = curTokAux (isWordChar c) r := by
  rw [curTokAux, if_neg (by rw [hsc]; simp), htr]

theorem curTokAux_triple {p : Bool} {c : Char} {r : List Char}
    {t : List Char} (hsc : isSc c = false) (hp : p = false)
    (ht : tripleAt c r = some t) : curTokAux p (c :: r) = some t := by
  subst hp
  rw [curTokAux, if_neg (by rw [hsc]; simp)]
  rw [if_neg (by simp), ht]

theorem tripleAt_none_of_not_upper {c : Char} {r : List Char}
    (h : isUpperAZ c = false) : tripleAt c r = none := by
  rcases r with _ | ⟨c2, _ | ⟨c3, r2⟩⟩
  · rfl
  · rfl
  · show (if (isUpperAZ c && isUpperAZ c2 && isUpperAZ c3 && bOk r2) = true
        then some [c, c2, c3] else none) = none
    rw [if_neg (by rw [h]; simp)]

theorem tripleAt_some_inv {c : Char} {r t : List Char}
    (h : tripleAt c r = some t) :
    ∃ c2 c3 r2, r = c2 :: c3 :: r2 ∧ isUpperAZ c = true ∧
      isUpperAZ c2 = true ∧ isUpperAZ c3 = true ∧ bOk r2 = true ∧
      t = [c, c2, c3] := by
  rcases r with _ | ⟨c2, _ | ⟨c3, r2⟩⟩
  · cases h
  · cases h
  · have h2 : (if (isUpperAZ c && isUpperAZ c2 && isUpperAZ c3 && bOk r2)
        = true then some [c, c2, c3] else (none : Option (List Char)))
        = some t := h
    split_ifs at h2 with hcond
    simp only [Bool.and_eq_true] at hcond
    rw [Option.some.injEq] at h2
    exact ⟨c2, c3, r2, rfl, hcond.1.1.1, hcond.1.1.2, hcond.1.2,
      hcond.2, h2.symm⟩

theorem tripleAt_mk {c c2 c3 : Char} {r2 : List Char}
    (h1 : isUpperAZ c = true) (h2 : isUpperAZ c2 = true)
    (h3 : isUpperAZ c3 = true) (hb : bOk r2 = true) :
    tripleAt c (c2 :: c3 :: r2) = some [c, c2, c3] := by
  show (if (isUpperAZ c && isUpperAZ c2 && isUpperAZ c3 && bOk r2) = true
      then some [c, c2, c3] else none) = some [c, c2, c3]
  rw [if_pos (by rw [h1, h2, h3, hb]; rfl)]

theorem incCur_collapse :
    ∀ l : List Char,
      (∀ p, (curTokAux p l).isSome = true →
        (curTokAux p (collapse l)).isSome = true) ∧
      ((curTokAux false l).isSome = true →
        (curTokAux false (collapseWs l)).isSome = true) := by
  intro l
  induction l with
  | nil => exact ⟨(fun p h => nomatch h), (fun h => nomatch h)⟩
  | cons a r ih =>
    have hcons : ∀ p, (curTokAux p (a :: r)).isSome = true →
        (curTokAux p (a :: collapse r)).isSome = true := by
      intro p h
      rcases hsc : isSc a with _ | _
      · rcases htrip : (if p = true then none else tripleAt a r) with
          _ | ⟨t⟩
        · rw [curTokAux_step hsc htrip] at h
          have h2 := (ih.1) (isWordChar a) h
          rcases hsc2 : isSc a with _ | _
          · rcases htrip2 :
              (if p = true then none else tripleAt a (collapse r)) with
              _ | ⟨t2⟩
            · rw [curTokAux_step hsc htrip2]
              exact h2
            · rw [Option.isSome_iff_exists]
              have hp : p = false := by
                by_contra hp
                rw [Bool.not_eq_false] at hp
                rw [if_pos hp] at htrip2
                cases htrip2
              rw [if_neg (by rw [hp]; simp)] at htrip2
              exact ⟨t2, curTokAux_triple hsc hp htrip2⟩
          · rw [hsc] at hsc2
            cases hsc2
        · have hp : p = false := by
            by_contra hp
            rw [Bool.not_eq_false] at hp
            rw [if_pos hp] at htrip
            cases htrip
          rw [if_neg (by rw [hp]; simp)] at htrip
          obtain ⟨c2, c3, r2, rfl, hu1, hu2, hu3, hb, rfl⟩ :=
            tripleAt_some_inv htrip
          rw [collapse_cons_not_ws (not_jsWs_of_isUpperAZ hu2),
            collapse_cons_not_ws (not_jsWs_of_isUpperAZ hu3)]
          rw [curTokAux_triple hsc hp
            (tripleAt_mk hu1 hu2 hu3 (bOk_collapse_of hb))]
          rfl
      · rw [curTokAux_sc hsc]
        rfl
    constructor
    · intro p h
      by_cases ha : jsWs a = true
      · rw [collapse_cons_ws ha]
        have hstep : curTokAux p (a :: r) = curTokAux false r := by
          rw [curTokAux_step (not_isSc_of_jsWs ha)
            (by rcases p with _ | _
                · rw [if_neg (by simp)]
                  exact tripleAt_none_of_not_upper (not_isUpperAZ_of_jsWs ha)
                · rw [if_pos rfl]),
            not_isWordChar_of_jsWs ha]
        rw [hstep] at h
        have h2 := (ih.2) h
        rw [curTokAux_step (by decide)
          (by rcases p with _ | _
              · rw [if_neg (by simp)]
                exact tripleAt_none_of_not_upper (by decide)
              · rw [if_pos rfl])]
        have : isWordChar ' ' = false := by decide
        rw [this]
        exact h2
      · rw [Bool.not_eq_true] at ha
        rw [collapse_cons_not_ws ha]
        exact hcons p h
    · intro h
      by_cases ha : jsWs a = true
      · rw [collapseWs_cons_ws ha]
        have hstep : curTokAux false (a :: r) = curTokAux false r := by
          rw [curTokAux_step (not_isSc_of_jsWs ha)
            (by rw [if_neg (by simp)]
                exact tripleAt_none_of_not_upper (not_isUpperAZ_of_jsWs ha)),
            not_isWordChar_of_jsWs ha]
        rw [hstep] at h
        exact (ih.2) h
      · rw [Bool.not_eq_true] at ha
        rw [collapseWs_cons_not_ws ha]
        exact hcons false h

theorem hasDec_false_of_all_ws {l : List Char}
    (h : ∀ c ∈ l, jsWs c = true) : hasDec l = false := by
  induction l with
  | nil => rfl
  | cons c r ih =>
    rw [hasDec_cons,
      decAtHead_false_of_head (not_isDigit_of_jsWs (h c (List.mem_cons_self _ _))),
      ih (fun c hc => h c (List.mem_cons_of_mem _ hc))]
    rfl

theorem hasDec_ltrim {l : List Char} (h : hasDec l = true) :
    hasDec (ltrim l) = true := by
  induction l with
  | nil => cases h
  | cons c r ih =>
    by_cases hw : jsWs c = true
    · rw [ltrim, List.dropWhile_cons, if_pos (by rw [hw])]
      rw [hasDec_cons,
        decAtHead_false_of_head (not_isDigit_of_jsWs hw),
        Bool.false_or] at h
      exact ih h
    · rw [Bool.not_eq_true] at hw
      rw [ltrim, List.dropWhile_cons, if_neg (by rw [hw]; simp)]
      exact h

theorem hasDec_rtrim {l : List Char} (h : hasDec l = true) :
    hasDec (rtrim l) = true := by
  induction l with
  | nil => cases h
  | cons c r ih =>
    by_cases hnil : rtrim r = [] ∧ jsWs c = true
    · exfalso
      have hallws : ∀ d ∈ c :: r, jsWs d = true := by
        intro d hd
        rcases List.mem_cons.mp hd with rfl | hd2
        · exact hnil.2
        · exact rtrim_eq_nil_iff.mp hnil.1 d hd2
      rw [hasDec_false_of_all_ws hallws] at h
      cases h
    · rw [rtrim, if_neg hnil]
      rw [hasDec_cons] at h
      rcases Bool.or_eq_true_iff.mp h with hda | hdr
      · obtain ⟨d, c1, c2, rest, heq, hd, h1, h2⟩ := decAtHead_structure hda
        rw [List.cons.injEq] at heq
        obtain ⟨rfl, hr⟩ := heq
        subst hr
        rw [rtrim_cons_of_not_ws jsWs_dot,
          rtrim_cons_of_not_ws (not_jsWs_of_isDigit h1),
          rtrim_cons_of_not_ws (not_jsWs_of_isDigit h2)]
        rw [hasDec_cons, decAtHead_pattern hd h1 h2, Bool.true_or]
      · exact hasDec_cons_of (ih hdr)

theorem grpC_suffix {l2 l : List Char} (hs : l2 <:+ l)
    (h : grpC l2 = true) : grpC l = true := by
  obtain ⟨pre, rfl⟩ := hs
  induction pre with
  | nil => exact h
  | cons a t ih => exact grpC_cons_of ih

theorem grpS_suffix {l2 l : List Char} (hs : l2 <:+ l)
    (h : grpS l2 = true) : grpS l = true := by
  obtain ⟨pre, rfl⟩ := hs
  induction pre with
  | nil => exact h
  | cons a t ih => exact grpS_cons_of ih

theorem tailMatchC_rtrim :
    ∀ r : List Char, tailMatchC (rtrim r) = true → tailMatchC r = true := by
  intro r
  induction r with
  | nil => intro h; cases h
  | cons a r2 ih =>
    intro h
    by_cases hnil : rtrim r2 = [] ∧ jsWs a = true
    · rw [rtrim, if_pos hnil] at h
      cases h
    · rw [rtrim, if_neg hnil] at h
      by_cases hd : a.isDigit = true
      · rw [tailMatchC_cons_digit hd] at h
        rw [tailMatchC_cons_digit hd]
        exact ih h
      · rw [Bool.not_eq_true] at hd
        by_cases hc : a = ','
        · subst hc
          obtain ⟨d1, d2, r3, hshape, h1, h2, h3⟩ :=
            tailMatchC_comma_iff.mp h
          obtain ⟨x2, rfl, hr2⟩ := rtrim_inv hshape
          obtain ⟨x3, rfl, hr3⟩ := rtrim_inv hr2
          rw [← hr3] at h3
          exact tailMatchC_comma_iff.mpr
            ⟨d1, d2, x3, rfl, h1, h2, bOk_of_bOk_rtrim h3⟩
        · rw [tailMatchC_cons_other hd hc] at h
          cases h

theorem grpC_rtrim :
    ∀ l : List Char, grpC (rtrim l) = true → grpC l = true := by
  intro l
  induction l with
  | nil => intro h; cases h
  | cons a r ih =>
    intro h
    by_cases hnil : rtrim r = [] ∧ jsWs a = true
    · rw [rtrim, if_pos hnil] at h
      cases h
    · rw [rtrim, if_neg hnil] at h
      rw [grpC_cons, matchCAt_cons] at h
      rcases Bool.or_eq_true_iff.mp h with hm | hg
      · rw [Bool.and_eq_true] at hm
        rw [grpC_cons, matchCAt_cons, hm.1, tailMatchC_rtrim r hm.2]
        simp
      · exact grpC_cons_of (ih hg)

theorem dropWhile_eq_nil_of_all {p : Char → Bool} {l : List Char}
    (h : ∀ c ∈ l, p c = true) : List.dropWhile p l = [] := by
  induction l with
  | nil => rfl
  | cons a r ih =>
    rw [List.dropWhile_cons, if_pos (by rw [h a (List.mem_cons_self _ _)])]
    exact ih (fun c hc => h c (List.mem_cons_of_mem _ hc))

theorem rtrim_dropWhile_comm :
    ∀ x : List Char,
      List.dropWhile jsWs (rtrim x) = rtrim (List.dropWhile jsWs x) := by
  intro x
  induction x with
  | nil => rfl
  | cons c x2 ih =>
    by_cases hw : jsWs c = true
    · by_cases hnil : rtrim x2 = []
      · rw [rtrim, if_pos ⟨hnil, hw⟩]
        rw [List.dropWhile_cons, if_pos (by rw [hw])]
        have : List.dropWhile jsWs x2 = [] :=
          dropWhile_eq_nil_of_all
            (fun c hc => rtrim_eq_nil_iff.mp hnil c hc)
        rw [this]
        rfl
      · rw [rtrim_cons_of_ne hnil, List.dropWhile_cons, if_pos (by rw [hw]),
          List.dropWhile_cons, if_pos (by rw [hw])]
        exact ih
    · rw [Bool.not_eq_true] at hw
      rw [rtrim_cons_of_not_ws hw, List.dropWhile_cons,
        if_neg (by rw [hw]; simp), List.dropWhile_cons,
        if_neg (by rw [hw]; simp), rtrim_cons_of_not_ws hw]

theorem tailMatchS_rtrim :
    ∀ r : List Char, tailMatchS (rtrim r) = true → tailMatchS r = true := by
  intro r
  induction r with
  | nil => intro h; cases h
  | cons a r2 ih =>
    intro h
    by_cases hnil : rtrim r2 = [] ∧ jsWs a = true
    · rw [rtrim, if_pos hnil] at h
      cases h
    · rw [rtrim, if_neg hnil] at h
      by_cases hd : a.isDigit = true
      · rw [tailMatchS_cons_digit hd] at h
        rw [tailMatchS_cons_digit hd]
        exact ih h
      · rw [Bool.not_eq_true] at hd
        by_cases hw : jsWs a = true
        · obtain ⟨d1, d2, r3, hshape, h1, h2, h3⟩ :=
            (tailMatchS_ws_iff hw).mp h
          rw [rtrim_dropWhile_comm] at hshape
          obtain ⟨z1, hz1, hrz1⟩ := rtrim_inv hshape
          obtain ⟨z2, rfl, hrz2⟩ := rtrim_inv hrz1
          rw [← hrz2] at h3
          refine (tailMatchS_ws_iff hw).mpr
            ⟨d1, d2, z2, ?_, h1, h2, bOk_of_bOk_rtrim h3⟩
          rw [hz1]
        · rw [Bool.not_eq_true] at hw
          rw [tailMatchS_cons_other hd hw] at h
          cases h

theorem grpS_rtrim :
    ∀ l : List Char, grpS (rtrim l) = true → grpS l = true := by
  intro l
  induction l with
  | nil => intro h; cases h
  | cons a r ih =>
    intro h
    by_cases hnil : rtrim r = [] ∧ jsWs a = true
    · rw [rtrim, if_pos hnil] at h
      cases h
    · rw [rtrim, if_neg hnil] at h
      rw [grpS_cons, matchSAt_cons] at h
      rcases Bool.or_eq_true_iff.mp h with hm | hg
      · rw [Bool.and_eq_true] at hm
        rw [grpS_cons, matchSAt_cons, hm.1, tailMatchS_rtrim r hm.2]
        simp
      · exact grpS_cons_of (ih hg)

theorem curTokAux_none_of_all_ws {l : List Char}
    (h : ∀ c ∈ l, jsWs c = true) : ∀ p, curTokAux p l = none := by
  induction l with
  | nil => intro p; rfl
  | cons c r ih =>
    intro p
    have hw := h c (List.mem_cons_self _ _)
    rw [curTokAux_step (not_isSc_of_jsWs hw)
      (by rcases p with _ | _
          · rw [if_neg (by simp)]
            exact tripleAt_none_of_not_upper (not_isUpperAZ_of_jsWs hw)
          · rw [if_pos rfl])]
    exact ih (fun c hc => h c (List.mem_cons_of_mem _ hc)) _

theorem incCur_ltrim {l : List Char}
    (h : (curTokAux false l).isSome = true) :
    (curTokAux false (ltrim l)).isSome = true := by
  induction l with
  | nil => cases h
  | cons c r ih =>
    by_cases hw : jsWs c = true
    · rw [ltrim, List.dropWhile_cons, if_pos (by rw [hw])]
      rw [curTokAux_step (not_isSc_of_jsWs hw)
        (by rw [if_neg (by simp)]
            exact tripleAt_none_of_not_upper (not_isUpperAZ_of_jsWs hw)),
        not_isWordChar_of_jsWs hw] at h
      exact ih h
    · rw [Bool.not_eq_true] at hw
      rw [ltrim, List.dropWhile_cons, if_neg (by rw [hw]; simp)]
      exact h

theorem bOk_rtrim_of {x : List Char} (h : bOk x = true) :
    bOk (rtrim x) = true := by
  cases x with
  | nil => rfl
  | cons f x2 =>
    rcases hr : rtrim (f :: x2) with _ | ⟨g, y⟩
    · rfl
    · obtain ⟨x3, hx, -⟩ := rtrim_inv hr
      rw [List.cons.injEq] at hx
      rw [← hx.1]
      exact h

theorem incCur_rtrim :
    ∀ (l : List Char) (p : Bool), (curTokAux p l).isSome = true →
      (curTokAux p (rtrim l)).isSome = true := by
  intro l
  induction l with
  | nil => intro p h; cases h
  | cons c r ih =>
    intro p h
    by_cases hnil : rtrim r = [] ∧ jsWs c = true
    · exfalso
      have hallws : ∀ d ∈ c :: r, jsWs d = true := by
        intro d hd
        rcases List.mem_cons.mp hd with rfl | hd2
        · exact hnil.2
        · exact rtrim_eq_nil_iff.mp hnil.1 d hd2
      rw [curTokAux_none_of_all_ws hallws p] at h
      cases h
    · rw [rtrim, if_neg hnil]
      rcases hsc : isSc c with _ | _
      · rcases htrip : (if p = true then none else tripleAt c r) with
          _ | ⟨t⟩
        · rw [curTokAux_step hsc htrip] at h
          have h2 := ih (isWordChar c) h
          rcases htrip2 :
              (if p = true then none else tripleAt c (rtrim r)) with
              _ | ⟨t2⟩
          · rw [curTokAux_step hsc htrip2]
            exact h2
          · have hp : p = false := by
              by_contra hp
              rw [Bool.not_eq_false] at hp
              rw [if_pos hp] at htrip2
              cases htrip2
            rw [if_neg (by rw [hp]; simp)] at htrip2
            rw [curTokAux_triple hsc hp htrip2]
            rfl
        · have hp : p = false := by
            by_contra hp
            rw [Bool.not_eq_false] at hp
            rw [if_pos hp] at htrip
            cases htrip
          rw [if_neg (by rw [hp]; simp)] at htrip
          obtain ⟨c2, c3, r2, rfl, hu1, hu2, hu3, hb, rfl⟩ :=
            tripleAt_some_inv htrip
          rw [rtrim_cons_of_not_ws (not_jsWs_of_isUpperAZ hu2),
            rtrim_cons_of_not_ws (not_jsWs_of_isUpperAZ hu3)]
          rw [curTokAux_triple hsc hp
            (tripleAt_mk hu1 hu2 hu3 (bOk_rtrim_of hb))]
          rfl
      · rw [curTokAux_sc hsc]
        rfl

theorem curTokAux_some_shape :
    ∀ (l : List Char) (p : Bool) (t : List Char), curTokAux p l = some t →
      (∃ c, t = [c] ∧ isSc c = true) ∨
      (∃ c1 c2 c3, t = [c1, c2, c3] ∧ isUpperAZ c1 = true ∧
        isUpperAZ c2 = true ∧ isUpperAZ c3 = true) := by
  intro l
  induction l with
  | nil => intro p t h; cases h
  | cons c r ih =>
    intro p t h
    rcases hsc : isSc c with _ | _
    · rcases htrip : (if p = true then none else tripleAt c r) with _ | ⟨t2⟩
      · rw [curTokAux_step hsc htrip] at h
        exact ih _ _ h
      · have hp : p = false := by
          by_contra hp
          rw [Bool.not_eq_false] at hp
          rw [if_pos hp] at htrip
          cases htrip
        rw [if_neg (by rw [hp]; simp)] at htrip
        rw [curTokAux_triple hsc hp htrip] at h
        rw [Option.some.injEq] at h
        obtain ⟨c2, c3, r2, -, hu1, hu2, hu3, -, rfl⟩ :=
          tripleAt_some_inv htrip
        exact Or.inr ⟨c, c2, c3, h.symm, hu1, hu2, hu3⟩
    · rw [curTokAux_sc hsc] at h
      rw [Option.some.injEq] at h
      exact Or.inl ⟨c, h.symm, hsc⟩

theorem curTok_chars {l : List Char} :
    ∀ c ∈ curTok l, isSc c = true ∨ isUpperAZ c = true := by
  intro c hc
  unfold curTok at hc
  rcases ht : curTokAux false l with _ | ⟨t⟩
  · rw [ht] at hc
    cases hc
  · rw [ht] at hc
    simp only [Option.getD_some] at hc
    rcases curTokAux_some_shape l false t ht with ⟨d, rfl, hd⟩ |
        ⟨c1, c2, c3, rfl, h1, h2, h3⟩
    · rcases List.mem_singleton.mp hc with rfl
      exact Or.inl hd
    · rcases List.mem_cons.mp hc with rfl | hc2
      · exact Or.inr h1
      · rcases List.mem_cons.mp hc2 with rfl | hc3
        · exact Or.inr h2
        · rcases List.mem_singleton.mp hc3 with rfl
          exact Or.inr h3

theorem curTok_ne_nil_of_incCur {l : List Char} (h : incCur l = true) :
    curTok l ≠ [] := by
  unfold incCur at h
  rcases ht : curTokAux false l with _ | ⟨t⟩
  · rw [ht] at h
    cases h
  · unfold curTok
    rw [ht]
    simp only [Option.getD_some]
    rcases curTokAux_some_shape l false t ht with ⟨d, rfl, -⟩ |
        ⟨c1, c2, c3, rfl, -, -, -⟩
    · simp
    · simp

theorem curTok_some_of_incCur {l : List Char} (h : incCur l = true) :
    curTokAux false l = some (curTok l) := by
  unfold incCur at h
  rcases ht : curTokAux false l with _ | ⟨t⟩
  · rw [ht] at h
    cases h
  · unfold curTok
    rw [ht]
    rfl

theorem bOk_space_cons (rest : List Char) : bOk (' ' :: rest) = true := by
  show (!isWordChar ' ') = true
  decide

theorem incCur_prepend {l0 tk : List Char}
    (htk : curTokAux false l0 = some tk) (rest : List Char) :
    incCur (tk ++ ' ' :: rest) = true := by
  rcases curTokAux_some_shape l0 false tk htk with ⟨d, rfl, hd⟩ |
      ⟨c1, c2, c3, rfl, h1, h2, h3⟩
  · unfold incCur
    rw [List.cons_append, List.nil_append, curTokAux_sc hd]
    rfl
  · unfold incCur
    rcases hsc : isSc c1 with _ | _
    · rw [List.cons_append, List.cons_append, List.cons_append,
        List.nil_append]
      rw [curTokAux_triple hsc rfl
        (tripleAt_mk h1 h2 h3 (bOk_space_cons rest))]
      rfl
    · rw [List.cons_append, curTokAux_sc hsc]
      rfl

theorem grpC_prepend_false {tk s : List Char}
    (htk : ∀ c ∈ tk, isSc c = true ∨ isUpperAZ c = true)
    (h : grpC s = false) : grpC (tk ++ ' ' :: s) = false := by
  induction tk with
  | nil =>
    rw [List.nil_append, grpC_cons_not_digit isDigit_space]
    exact h
  | cons a t ih =>
    rw [List.cons_append, grpC_cons_not_digit]
    · exact ih (fun c hc => htk c (List.mem_cons_of_mem _ hc))
    · rcases htk a (List.mem_cons_self _ _) with ha | ha
      · exact not_isDigit_of_isSc ha
      · exact not_isDigit_of_isUpperAZ ha

theorem grpS_prepend_false {tk s : List Char}
    (htk : ∀ c ∈ tk, isSc c = true ∨ isUpperAZ c = true)
    (h : grpS s = false) : grpS (tk ++ ' ' :: s) = false := by
  induction tk with
  | nil =>
    rw [List.nil_append, grpS_cons_not_digit isDigit_space]
    exact h
  | cons a t ih =>
    rw [List.cons_append, grpS_cons_not_digit]
    · exact ih (fun c hc => htk c (List.mem_cons_of_mem _ hc))
    · rcases htk a (List.mem_cons_self _ _) with ha | ha
      · exact not_isDigit_of_isSc ha
      · exact not_isDigit_of_isUpperAZ ha

theorem hasDec_prepend {tk s : List Char} (h : hasDec s = true) :
    hasDec (tk ++ ' ' :: s) = true :=
  hasDec_append (hasDec_cons_of h)

theorem mem_commaStep {c : Char} :
    ∀ {l : List Char}, c ∈ commaStep l → c ∈ l ∨ c = '.' := by
  intro l
  induction l with
  | nil => intro h; cases h
  | cons a r ih =>
    intro h
    rw [commaStep] at h
    split at h
    · rcases List.mem_append.mp h with h1 | h2
      · exact Or.inl ((List.takeWhile_sublist _).subset h1)
      · rcases List.mem_cons.mp h2 with rfl | h3
        · exact Or.inr rfl
        · have h4 : c ∈ (a :: r).dropWhile Char.isDigit :=
            List.mem_of_mem_tail h3
          exact Or.inl ((List.dropWhile_sublist _).subset h4)
    · rcases List.mem_cons.mp h with rfl | h2
      · exact Or.inl (List.mem_cons_self _ _)
      · rcases ih h2 with h3 | h3
        · exact Or.inl (List.mem_cons_of_mem _ h3)
        · exact Or.inr h3

theorem mem_spaceStep {c : Char} :
    ∀ {l : List Char}, c ∈ spaceStep l → c ∈ l ∨ c = '.' := by
  intro l
  induction l with
  | nil => intro h; cases h
  | cons a r ih =>
    intro h
    rw [spaceStep] at h
    split at h
    · rcases List.mem_append.mp h with h1 | h2
      · exact Or.inl ((List.takeWhile_sublist _).subset h1)
      · rcases List.mem_cons.mp h2 with rfl | h3
        · exact Or.inr rfl
        · have h4 : c ∈ (a :: r).dropWhile Char.isDigit :=
            (List.dropWhile_sublist _).subset h3
          exact Or.inl ((List.dropWhile_sublist _).subset h4)
    · rcases List.mem_cons.mp h with rfl | h2
      · exact Or.inl (List.mem_cons_self _ _)
      · rcases ih h2 with h3 | h3
        · exact Or.inl (List.mem_cons_of_mem _ h3)
        · exact Or.inr h3

theorem exists_nonws_of_hasDec :
    ∀ {l : List Char}, hasDec l = true → ∃ c ∈ l, jsWs c = false := by
  intro l
  induction l with
  | nil => intro h; cases h
  | cons a r ih =>
    intro h
    rw [hasDec_cons] at h
    rcases Bool.or_eq_true_iff.mp h with hda | hdr
    · obtain ⟨d, c1, c2, rest, heq, -, -, -⟩ := decAtHead_structure hda
      refine ⟨'.', ?_, jsWs_dot⟩
      rw [heq]
      simp
    · obtain ⟨c, hc, hw⟩ := ih hdr
      exact ⟨c, List.mem_cons_of_mem _ hc, hw⟩

theorem npComma_eq_id {t : List Char}
    (h : hasDec t = true ∨ grpC t = false) : npComma t = t := by
  unfold npComma
  rcases hd : hasDec t with _ | _
  · rw [if_neg (by simp)]
    rcases h with h | h
    · rw [hd] at h
      cases h
    · exact commaStep_id_of_not_grpC h
  · rw [if_pos rfl]

theorem npSpace_eq_id {t : List Char}
    (h : hasDec t = true ∨ grpS t = false) : npSpace t = t := by
  unfold npSpace
  rcases hd : hasDec t with _ | _
  · rw [if_neg (by simp)]
    rcases h with h | h
    · rw [hd] at h
      cases h
    · exact spaceStep_id_of_not_grpS h
  · rw [if_pos rfl]

theorem npSuper_false (dom t : List Char) : npSuper false dom t = t := by
  unfold npSuper
  rw [if_neg (by simp)]

theorem npCurrency_eq_id {dom t : List Char}
    (h : incCur t = true ∨ incCur dom = false) : npCurrency dom t = t := by
  unfold npCurrency
  rw [if_neg]
  rcases h with h | h <;> rw [h] <;> simp

theorem npCS_cases (s : List Char) :
    hasDec (npSpace (npComma s)) = true ∨
      (hasDec (npSpace (npComma s)) = false ∧ grpC s = false ∧
        grpS s = false ∧ npSpace (npComma s) = s) := by
  rcases hd : hasDec s with _ | _
  · have hc : npComma s = commaStep s := by
      unfold npComma
      rw [hd, if_neg (by simp)]
    rcases hg : grpC s with _ | _
    · have hcs : npComma s = s := by rw [hc, commaStep_id_of_not_grpC hg]
      rcases hs : grpS s with _ | _
      · have hss : npSpace (npComma s) = s := by
          rw [hcs]
          unfold npSpace
          rw [hd, if_neg (by simp), spaceStep_id_of_not_grpS hs]
        rw [hss]
        exact Or.inr ⟨hd, rfl, rfl, rfl⟩
      · have hss : npSpace (npComma s) = spaceStep s := by
          rw [hcs]
          unfold npSpace
          rw [hd, if_neg (by simp)]
        rw [hss]
        exact Or.inl (hasDec_spaceStep hs)
    · have hdec : hasDec (npComma s) = true := by
        rw [hc]
        exact hasDec_commaStep hg
      left
      unfold npSpace
      rw [if_pos hdec]
      exact hdec
  · have hcs : npComma s = s := npComma_eq_id (Or.inl hd)
    left
    rw [hcs]
    unfold npSpace
    rw [if_pos hd]
    exact hd

theorem npSuper_dec_cases (hsup : Bool) (dom s : List Char)
    (h : hasDec s = true ∨
      (hasDec s = false ∧ grpC s = false ∧ grpS s = false)) :
    hasDec (npSuper hsup dom s) = true ∨
      (grpC (npSuper hsup dom s) = false ∧
        grpS (npSuper hsup dom s) = false) := by
  unfold npSuper
  by_cases hcond : (hsup && !hasDec s) = true
  · rw [if_pos hcond]
    rw [Bool.and_eq_true, Bool.not_eq_true'] at hcond
    rcases h with h | h
    · rw [h] at hcond
      cases hcond.2
    · by_cases hlen : 3 ≤ (s.filter Char.isDigit).length
      · rw [if_pos hlen]
        have hdig : ∀ c ∈ s.filter Char.isDigit, c.isDigit = true :=
          fun c hc => List.of_mem_filter hc
        have hdroplen : ((s.filter Char.isDigit).drop
            ((s.filter Char.isDigit).length - 2)).length = 2 := by
          rw [List.length_drop]
          omega
        obtain ⟨d1, d2, hab⟩ := List.length_eq_two.mp hdroplen
        have hsub : [d1, d2] ⊆ s.filter Char.isDigit := by
          rw [← hab]
          exact (List.drop_sublist _ _).subset
        have hnum : hasDec ((s.filter Char.isDigit).take
            ((s.filter Char.isDigit).length - 2) ++
            '.' :: (s.filter Char.isDigit).drop
              ((s.filter Char.isDigit).length - 2)) = true := by
          rw [hab]
          refine hasDec_parts ?_ ?_ ?_ ?_
          · intro hnil
            have := congrArg List.length hnil
            rw [List.length_take] at this
            simp only [List.length_nil] at this
            omega
          · intro c hc
            exact hdig c ((List.take_sublist _ _).subset hc)
          · exact hdig d1 (hsub (by simp))
          · exact hdig d2 (hsub (by simp))
        by_cases hcur :
            (if curTok s = [] then curTok dom else curTok s) = []
        · rw [if_pos hcur]
          exact Or.inl hnum
        · rw [if_neg hcur]
          exact Or.inl (hasDec_prepend hnum)
      · rw [if_neg hlen]
        exact Or.inr ⟨h.2.1, h.2.2⟩
  · rw [if_neg hcond]
    rcases h with h | h
    · exact Or.inl h
    · exact Or.inr ⟨h.2.1, h.2.2⟩

theorem mem_curTok_if {dom s : List Char} {c : Char}
    (hc : c ∈ (if curTok s = [] then curTok dom else curTok s)) :
    isSc c = true ∨ isUpperAZ c = true := by
  split at hc
  · exact curTok_chars c hc
  · exact curTok_chars c hc

theorem npSuper_shape (hsup : Bool) (dom s : List Char) :
    npSuper hsup dom s = s ∨
      ∃ pre, npSuper hsup dom s = pre ++
          ((s.filter Char.isDigit).take ((s.filter Char.isDigit).length - 2) ++
            '.' :: (s.filter Char.isDigit).drop
              ((s.filter Char.isDigit).length - 2)) ∧
        (pre = [] ∨ ∃ tk, (tk = curTok s ∨ tk = curTok dom) ∧
          pre = tk ++ [' ']) := by
  unfold npSuper
  by_cases hcond : (hsup && !hasDec s) = true
  · rw [if_pos hcond]
    by_cases hlen : 3 ≤ (s.filter Char.isDigit).length
    · rw [if_pos hlen]
      by_cases hcur :
          (if curTok s = [] then curTok dom else curTok s) = []
      · rw [if_pos hcur]
        refine Or.inr ⟨[], by simp, Or.inl rfl⟩
      · rw [if_neg hcur]
        refine Or.inr ⟨(if curTok s = [] then curTok dom else curTok s)
          ++ [' '], by simp, Or.inr ?_⟩
        by_cases hcs : curTok s = []
        · exact ⟨curTok dom, Or.inr rfl, by rw [if_pos hcs]⟩
        · exact ⟨curTok s, Or.inl rfl, by rw [if_neg hcs]⟩
    · rw [if_neg hlen]
      exact Or.inl rfl
  · rw [if_neg hcond]
    exact Or.inl rfl

theorem npSuper_num_noSupSub (s : List Char) :
    ∀ d ∈ (s.filter Char.isDigit).take
        ((s.filter Char.isDigit).length - 2) ++
        '.' :: (s.filter Char.isDigit).drop
          ((s.filter Char.isDigit).length - 2), isSupSub d = false := by
  intro d hd
  rcases List.mem_append.mp hd with h1 | h2
  · exact not_isSupSub_of_isDigit
      (List.of_mem_filter ((List.take_sublist _ _).subset h1))
  · rcases List.mem_cons.mp h2 with rfl | h3
    · decide
    · exact not_isSupSub_of_isDigit
        (List.of_mem_filter ((List.drop_sublist _ _).subset h3))

theorem npSuper_noSupSub (hsup : Bool) (dom s : List Char)
    (hns : ∀ c ∈ s, isSupSub c = false) :
    ∀ c ∈ npSuper hsup dom s, isSupSub c = false := by
  intro c hc
  rcases npSuper_shape hsup dom s with heq | ⟨pre, heq, hpre⟩
  · rw [heq] at hc
    exact hns c hc
  · rw [heq] at hc
    rcases List.mem_append.mp hc with h1 | h2
    · rcases hpre with rfl | ⟨tk, htk, rfl⟩
      · cases h1
      · rcases List.mem_append.mp h1 with h3 | h4
        · rcases htk with rfl | rfl <;>
            rcases curTok_chars c h3 with hx | hx
          · exact not_isSupSub_of_isSc hx
          · exact not_isSupSub_of_isUpperAZ hx
          · exact not_isSupSub_of_isSc hx
          · exact not_isSupSub_of_isUpperAZ hx
        · rcases List.mem_singleton.mp h4 with rfl
          decide
    · exact npSuper_num_noSupSub s c h2

theorem npSuper_exists_nonws (hsup : Bool) (dom s : List Char)
    (h : ∃ c ∈ s, jsWs c = false) :
    ∃ c ∈ npSuper hsup dom s, jsWs c = false := by
  rcases npSuper_shape hsup dom s with heq | ⟨pre, heq, -⟩
  · rw [heq]
    exact h
  · rw [heq]
    refine ⟨'.', List.mem_append.mpr (Or.inr (List.mem_append.mpr
      (Or.inr (List.mem_cons_self _ _)))), jsWs_dot⟩

theorem npCurrency_shape (dom s : List Char) :
    npCurrency dom s = s ∨
      ∃ tk, curTokAux false dom = some tk ∧
        npCurrency dom s = tk ++ ' ' :: s := by
  unfold npCurrency
  by_cases hg : (!incCur s && incCur dom) = true
  · rw [if_pos hg]
    by_cases hc : curTok dom = []
    · rw [if_pos hc]
      exact Or.inl rfl
    · rw [if_neg hc]
      rw [Bool.and_eq_true] at hg
      exact Or.inr ⟨curTok dom, curTok_some_of_incCur hg.2, rfl⟩
  · rw [if_neg hg]
    exact Or.inl rfl

theorem npCurrency_incCur (dom s : List Char) (h : incCur dom = true) :
    incCur (npCurrency dom s) = true := by
  unfold npCurrency
  by_cases hg : (!incCur s && incCur dom) = true
  · rw [if_pos hg]
    by_cases hc : curTok dom = []
    · exact absurd hc (curTok_ne_nil_of_incCur h)
    · rw [if_neg hc]
      exact incCur_prepend (curTok_some_of_incCur h) s
  · rw [if_neg hg]
    rw [h, Bool.and_true, Bool.not_eq_true', Bool.not_eq_false] at hg
    exact hg

theorem mem_npComma {c : Char} {s : List Char} (h : c ∈ npComma s) :
    c ∈ s ∨ c = '.' := by
  unfold npComma at h
  split at h
  · exact Or.inl h
  · exact mem_commaStep h

theorem mem_npSpace {c : Char} {s : List Char} (h : c ∈ npSpace s) :
    c ∈ s ∨ c = '.' := by
  unfold npSpace at h
  split at h
  · exact Or.inl h
  · exact mem_spaceStep h

theorem jsTrim_head_not_ws {l r : List Char} {c : Char}
    (h : jsTrim l = c :: r) : jsWs c = false := by
  unfold jsTrim at h
  have hpre := rtrim_prefix (ltrim l)
  rw [h] at hpre
  obtain ⟨u, hu⟩ := hpre
  exact ltrim_head_not_ws hu.symm

theorem pipe_exists_nonws (hsup : Bool) (dom s2 : List Char)
    (h : ∃ c ∈ s2, jsWs c = false) :
    ∃ c ∈ npCurrency dom (npSuper hsup dom (npSpace (npComma s2))),
      jsWs c = false := by
  have h5 : ∃ c ∈ npSpace (npComma s2), jsWs c = false := by
    rcases npCS_cases s2 with hd | ⟨-, -, -, heq⟩
    · exact exists_nonws_of_hasDec hd
    · rw [heq]
      exact h
  have h6 := npSuper_exists_nonws hsup dom _ h5
  rcases npCurrency_shape dom (npSuper hsup dom (npSpace (npComma s2)))
    with heq | ⟨tk, -, heq⟩
  · rw [heq]
    exact h6
  · rw [heq]
    obtain ⟨c, hc, hw⟩ := h6
    exact ⟨c, List.mem_append.mpr (Or.inr (List.mem_cons_of_mem _ hc)), hw⟩

theorem pipe_noSupSub (hsup : Bool) (dom s2 : List Char)
    (hs2 : ∀ c ∈ s2, isSupSub c = false) :
    ∀ c ∈ npCurrency dom (npSuper hsup dom (npSpace (npComma s2))),
      isSupSub c = false := by
  have hs5 : ∀ c ∈ npSpace (npComma s2), isSupSub c = false := by
    intro c hc
    rcases mem_npSpace hc with h1 | rfl
    · rcases mem_npComma h1 with h2 | rfl
      · exact hs2 c h2
      · decide
    · decide
  have hs6 := npSuper_noSupSub hsup dom _ hs5
  intro c hc
  rcases npCurrency_shape dom (npSuper hsup dom (npSpace (npComma s2)))
    with heq | ⟨tk, hsome, heq⟩
  · rw [heq] at hc
    exact hs6 c hc
  · rw [heq] at hc
    have htkeq : curTok dom = tk := by
      unfold curTok
      rw [hsome]
      rfl
    rcases List.mem_append.mp hc with h1 | h2
    · rcases curTok_chars c (by rw [htkeq]; exact h1) with hx | hx
      · exact not_isSupSub_of_isSc hx
      · exact not_isSupSub_of_isUpperAZ hx
    · rcases List.mem_cons.mp h2 with rfl | h3
      · decide
      · exact hs6 c h3

theorem pipe_dec (hsup : Bool) (dom s2 : List Char) :
    hasDec (npCurrency dom (npSuper hsup dom (npSpace (npComma s2)))) =
      true ∨
    (grpC (npCurrency dom (npSuper hsup dom (npSpace (npComma s2)))) =
        false ∧
      grpS (npCurrency dom (npSuper hsup dom (npSpace (npComma s2)))) =
        false) := by
  have h5 : hasDec (npSpace (npComma s2)) = true ∨
      (hasDec (npSpace (npComma s2)) = false ∧
        grpC (npSpace (npComma s2)) = false ∧
        grpS (npSpace (npComma s2)) = false) := by
    rcases npCS_cases s2 with hd | ⟨hnd, hgc, hgs, heq⟩
    · exact Or.inl hd
    · refine Or.inr ⟨hnd, ?_, ?_⟩ <;> rw [heq] <;> assumption
  have h6 := npSuper_dec_cases hsup dom _ h5
  rcases npCurrency_shape dom (npSuper hsup dom (npSpace (npComma s2)))
    with heq | ⟨tk, hsome, heq⟩
  · rw [heq]
    exact h6
  · rw [heq]
    have htkeq : curTok dom = tk := by
      unfold curTok
      rw [hsome]
      rfl
    have htk : ∀ c ∈ tk, isSc c = true ∨ isUpperAZ c = true := by
      intro c hc
      exact curTok_chars c (by rw [htkeq]; exact hc)
    rcases h6 with hd | ⟨hgc, hgs⟩
    · exact Or.inl (hasDec_prepend hd)
    · exact Or.inr ⟨grpC_prepend_false htk hgc, grpS_prepend_false htk hgs⟩

theorem jsTrim_collapse_canon {dom s6 : List Char}
    (hnw : ∃ c ∈ s6, jsWs c = false)
    (hss : ∀ c ∈ s6, isSupSub c = false)
    (hdec : hasDec s6 = true ∨ (grpC s6 = false ∧ grpS s6 = false))
    (hcur : incCur dom = true → incCur s6 = true) :
    priceCanon dom (jsTrim (collapse s6)) := by
  obtain ⟨c0, hc0, hw0⟩ := hnw
  have hc0x : c0 ∈ collapse s6 := (mem_collapse_of_not_ws hc0 hw0).1
  have htne : jsTrim (collapse s6) ≠ [] := jsTrim_ne_nil_of_mem hc0x hw0
  have hmem : ∀ c ∈ jsTrim (collapse s6), c ∈ collapse s6 :=
    fun c hc => mem_ltrim (mem_rtrim hc)
  refine ⟨htne, ?_, ?_, ?_, ?_, ?_, ?_, ?_⟩
  · intro c hc hwc
    rcases (mem_collapse_spec s6).1 c (hmem c hc) with rfl | ⟨-, hnw2⟩
    · rfl
    · rw [hwc] at hnw2
      cases hnw2
  · refine List.Chain'.prefix ?_ ( rtrim_prefix _)
    exact List.Chain'.suffix (chain_collapse s6).1 (List.dropWhile_suffix jsWs)
  · intro c r heq
    exact jsTrim_head_not_ws heq
  · intro c hc
    exact rtrim_getLast_not_ws hc
  · intro c hc
    rcases (mem_collapse_spec s6).1 c (hmem c hc) with rfl | ⟨hm, -⟩
    · decide
    · exact hss c hm
  · rcases hdec with hd | ⟨hgc, hgs⟩
    · exact Or.inl (hasDec_rtrim (hasDec_ltrim ((hasDec_collapse s6).1 hd)))
    · refine Or.inr ⟨?_, ?_⟩
      · rcases hg : grpC (jsTrim (collapse s6)) with _ | _
        · rfl
        · exfalso
          have h1 := grpC_rtrim (ltrim (collapse s6)) hg
          have h2 := grpC_suffix (List.dropWhile_suffix jsWs) h1
          have h3 := (grpC_collapse s6).1 h2
          rw [hgc] at h3
          cases h3
      · rcases hg : grpS (jsTrim (collapse s6)) with _ | _
        · rfl
        · exfalso
          have h1 := grpS_rtrim (ltrim (collapse s6)) hg
          have h2 := grpS_suffix (List.dropWhile_suffix jsWs) h1
          have h3 := (grpS_collapse s6).1 h2
          rw [hgs] at h3
          cases h3
  · intro h
    have h1 := hcur h
    have h2 := (incCur_collapse s6).1 false h1
    have h3 := incCur_ltrim h2
    exact incCur_rtrim (ltrim (collapse s6)) false h3

theorem normPrice_eq_pipe (raw dom : List Char) (hne : jsTrim raw ≠ [])
    (h2 : jsTrim (collapse (normPipe raw dom)) ≠ []) :
    normPrice raw dom = jsTrim (collapse (normPipe raw dom)) := by
  unfold normPipe at h2
  unfold normPrice normPipe
  rw [if_neg hne, if_neg h2]

theorem normPrice_canon (raw dom : List Char) (hne : jsTrim raw ≠ []) :
    priceCanon dom (normPrice raw dom) := by
  have hnw : ∃ c ∈ normPipe raw dom, jsWs c = false := by
    unfold normPipe
    refine pipe_exists_nonws _ _ _ ?_
    rcases h0 : jsTrim raw with _ | ⟨c, r⟩
    · exact absurd h0 hne
    · have hw := jsTrim_head_not_ws h0
      have hw1 : jsWs (nbspToSpace c) = false := by
        rw [nbspToSpace_eq_self_of_not_jsWs hw]
        exact hw
      have hw2 : jsWs (supMap (nbspToSpace c)) = false := by
        rcases hws : jsWs (supMap (nbspToSpace c)) with _ | _
        · rfl
        · exact absurd (jsWs_supMap hws) (by simp [hw1])
      exact ⟨supMap (nbspToSpace c),
        List.mem_map_of_mem _ (List.mem_map_of_mem _
          (List.mem_cons_self _ _)), hw2⟩
  have hss : ∀ c ∈ normPipe raw dom, isSupSub c = false := by
    unfold normPipe
    refine pipe_noSupSub _ _ _ ?_
    intro c hc
    obtain ⟨e, -, rfl⟩ := List.mem_map.mp hc
    exact isSupSub_supMap e
  have hdec : hasDec (normPipe raw dom) = true ∨
      (grpC (normPipe raw dom) = false ∧ grpS (normPipe raw dom) = false) := by
    unfold normPipe
    exact pipe_dec _ _ _
  have hcur : incCur dom = true → incCur (normPipe raw dom) = true := by
    intro h
    unfold normPipe
    exact npCurrency_incCur dom _ h
  have hcanon := jsTrim_collapse_canon hnw hss hdec hcur
  rw [normPrice_eq_pipe raw dom hne hcanon.1]
  exact hcanon

theorem normPrice_id_of_canon {dom t : List Char} (h : priceCanon dom t) :
    normPrice t dom = t := by
  obtain ⟨hne, hws, hch, hhd, hlast, hss, hdec, hcur⟩ := h
  have hltr : ltrim t = t := ltrim_eq_self_of_head hhd
  have hrtr : rtrim t = t := rtrim_eq_self_of_getLast hlast
  have htr : jsTrim t = t := by
    unfold jsTrim
    rw [hltr, hrtr]
  have hmap1 : t.map nbspToSpace = t := by
    refine map_eq_self_of_mem ?_
    intro c hc
    rcases hw : jsWs c with _ | _
    · exact nbspToSpace_eq_self_of_not_jsWs hw
    · rw [hws c hc hw]
      exact nbspToSpace_space
  have hany : t.any isSupSub = false := by
    rw [Bool.eq_false_iff]
    intro hcon
    obtain ⟨c, hc, hsc⟩ := List.any_eq_true.mp hcon
    rw [hss c hc] at hsc
    cases hsc
  have hmap2 : t.map supMap = t :=
    map_eq_self_of_mem fun c hc => supMap_eq_self_of_not_isSupSub (hss c hc)
  have hcm : npComma t = t := npComma_eq_id (hdec.imp id And.left)
  have hsp : npSpace t = t := npSpace_eq_id (hdec.imp id And.right)
  have hcu : npCurrency dom t = t := by
    refine npCurrency_eq_id ?_
    rcases hic : incCur dom with _ | _
    · exact Or.inr rfl
    · exact Or.inl (hcur hic)
  have hco : collapse t = t := collapse_eq_self hws hch
  unfold normPrice
  rw [htr, if_neg hne]
  simp only [hmap1, hany, hmap2, hcm, hsp, npSuper_false, hcu, hco, htr]
  rw [if_neg hne]

end ScannerFacts

/-- Claim C4, counterexample to the universally quantified statement: price
normalization is not idempotent on every input.  For the blank raw string
the first pass returns the sentinel "Unspecified", and renormalizing that
sentinel against the DOM price "$1" borrows the currency token and yields
"$ Unspecified", a different string. -/
theorem normalizeGeminiPrice_blank_not_idempotent :
    normalizeGeminiPrice (normalizeGeminiPrice "" "$1") "$1" ≠
      normalizeGeminiPrice "" "$1" := by
  decide

/-- Claim C4, amended: price normalization is idempotent on every raw
string whose JavaScript-trimmed form is nonempty (equivalently, every
input that does not take the blank-input "Unspecified" early return).
For such inputs the first pass output is canonical — nonempty, collapsed
single-space whitespace, trimmed, free of superscript digits, with either
a decimal already present or no grouping rule able to fire, and with a
currency token whenever the DOM price has one — and every stage of the
second pass is the identity on it. -/
theorem normalizeGeminiPrice_idempotent_on_nonblank (raw dom : String)
    (h : jsTrimS raw ≠ "") :
    normalizeGeminiPrice (normalizeGeminiPrice raw dom) dom =
      normalizeGeminiPrice raw dom := by
  have hne : jsTrim raw.data ≠ [] := by
    intro h0
    apply h
    unfold jsTrimS
    rw [h0]
  have hcanon := normPrice_canon raw.data dom.data hne
  unfold normalizeGeminiPrice
  exact congrArg String.mk (normPrice_id_of_canon hcanon)

/-- Witness for the amended C4 theorem at the spec's own example input:
"34,95" trims to itself (nonempty), and renormalizing its normalization
against the DOM price "$1" is the identity. -/
theorem normalizeGeminiPrice_idempotent_on_nonblank_witness :
    jsTrimS "34,95" ≠ "" ∧
      normalizeGeminiPrice (normalizeGeminiPrice "34,95" "$1") "$1" =
        normalizeGeminiPrice "34,95" "$1" :=
  ⟨by decide, normalizeGeminiPrice_idempotent_on_nonblank "34,95" "$1"
    (by decide)⟩

end Pageshot

